import Mathlib

/-!
Verification of the message-handling pipeline of a small chat server
(`server.js`): rule-based matcher, retrieval helper, fallback generator,
session store, and the chat request handler.

The JavaScript source is shallowly embedded:
* strings are Lean `String`s (lists of characters);
* the regular-expression tests of the rule chain are translated into
  executable character-list matchers, faithful to the leftmost-match,
  greedy semantics of the specific patterns used (for each pattern in the
  source, the greedily matched character classes are pairwise disjoint from
  the following literal, so greedy matching without backtracking computes
  exactly the JavaScript match);
* JavaScript numbers are modelled by exact `Nat`/`Int` arithmetic; the
  theorems that speak about computed numeric replies carry an explicit
  `< 2 ^ 53` bound, inside which IEEE-754 doubles represent the integers
  involved exactly, so the exact model agrees with the source;
* the asynchronous provider call is modelled by a `ProviderResult` input
  describing the outcome of the single `fetch`; randomness
  (`Math.floor(Math.random() * 8)`) is modelled by an injected `Fin 8`.
-/

/-! ### Character classes (JavaScript `\s`, digits, lowercasing) -/

/-- The characters matched by JavaScript's `\s` class, which is also the set
of characters removed by `String.prototype.trim` (WhiteSpace plus
LineTerminator). -/
def jsWhitespaceChars : List Char :=
  [' ', '\t', '\n', '\r', '\x0b', '\x0c', '\u00a0', '\u1680', '\u2000',
   '\u2001', '\u2002', '\u2003', '\u2004', '\u2005', '\u2006', '\u2007',
   '\u2008', '\u2009', '\u200a', '\u2028', '\u2029', '\u202f', '\u205f',
   '\u3000', '\ufeff']

/-- JavaScript whitespace-class (`\s`) membership test. -/
def isJsWs (c : Char) : Bool := decide (c ∈ jsWhitespaceChars)

/-- The ten characters of JavaScript's digit class `\d`. -/
def asciiDigits : List Char :=
  ['0', '1', '2', '3', '4', '5', '6', '7', '8', '9']

/-- ASCII decimal digit test, JavaScript's `\d`. -/
def isAsciiDigit (c : Char) : Bool := decide (c ∈ asciiDigits)

/-- The line terminators that JavaScript's `.` (without the `s` flag) does
not match. -/
def isLineTerm (c : Char) : Bool :=
  c = '\n' || c = '\r' || c = '\u2028' || c = '\u2029'

/-- Model of `message.toLowerCase()`.  `Char.toLower` lower-cases the ASCII range;
all messages the theorems below quantify over stay inside the range where
this agrees with JavaScript's Unicode lower-casing. -/
def lowerStr (s : String) : String := ⟨s.data.map Char.toLower⟩

/-- Model of `message.trim()` on the character list: strip whitespace-class
characters from both ends. -/
def jsTrimList (l : List Char) : List Char :=
  (((l.dropWhile isJsWs).reverse).dropWhile isJsWs).reverse

/-- Model of `message.trim()`. -/
def jsTrim (s : String) : String := ⟨jsTrimList s.data⟩

/-! ### Generic matcher combinators -/

/-- Does `p` hold of some suffix of `l`?  This is how an unanchored regex
test scans every start position of the subject string. -/
def existsAt (p : List Char → Bool) : List Char → Bool
  | [] => p []
  | c :: r => p (c :: r) || existsAt p r

/-- Match `.*` followed by a continuation `p`: some split of the input into
a line-terminator-free prefix and a suffix satisfying `p`. -/
def dotThen (p : List Char → Bool) : List Char → Bool
  | [] => p []
  | c :: r => p (c :: r) || (!isLineTerm c && dotThen p r)

/-- Model of `s.includes(w)`: `w` occurs as a contiguous substring of `s`. -/
def containsSub (s w : List Char) : Bool := existsAt (fun t => w.isPrefixOf t) s

/-- String-level `includes`. -/
def strIncludes (s w : String) : Bool := containsSub s.data w.data

/-- Strip an expected literal from the front of the input, returning the
rest on success. -/
def stripLit : List Char → List Char → Option (List Char)
  | [], s => some s
  | _ :: _, [] => none
  | c :: w, d :: s => if d = c then stripLit w s else none

/-! ### The arithmetic pair matcher

`/(\d+)\s*op\s*(\d+)/` both as a test and as `String.match`: scan start
positions left to right; at each position take the maximal digit run, then
the maximal `\s` run, the operator character, another maximal `\s` run and
a second maximal digit run.  Greedy maximal runs are exact here because a
digit is never an operator or whitespace and vice versa, so backtracking
can never turn a failure into a success. -/

/-- Matcher for `(\d+)\s*op\s*(\d+)` anchored at the start of `s`,
returning the two captured digit runs. -/
def pairAt (op : Char) (s : List Char) : Option (List Char × List Char) :=
  if (s.takeWhile isAsciiDigit).isEmpty then none
  else
    match (s.dropWhile isAsciiDigit).dropWhile isJsWs with
    | [] => none
    | c :: r =>
      if c = op then
        if ((r.dropWhile isJsWs).takeWhile isAsciiDigit).isEmpty then none
        else some (s.takeWhile isAsciiDigit, (r.dropWhile isJsWs).takeWhile isAsciiDigit)
      else none

/-- Leftmost match of `(\d+)\s*op\s*(\d+)`, as JavaScript `String.match`
finds it.  The source's `regex.test` succeeds exactly when this returns
`some`, since test and match use the same pattern on the same subject. -/
def firstPair (op : Char) : List Char → Option (List Char × List Char)
  | [] => none
  | c :: r =>
    match pairAt op (c :: r) with
    | some x => some x
    | none => firstPair op r

/-- Value of `parseInt` on a digit run (exact; IEEE doubles agree below
`2 ^ 53`). -/
def natOfDigits (l : List Char) : Nat :=
  l.foldl (fun n c => n * 10 + (c.toNat - 48)) 0

/-! ### The individual rule regexes of the chat handler -/

/-- Matcher for the tail `(\s*=\s*)?$` of the `2+2` pattern. -/
def afterTwo (s : List Char) : Bool :=
  s.isEmpty ||
    (match s.dropWhile isJsWs with
     | [] => false
     | c :: r => if c = '=' then (r.dropWhile isJsWs).isEmpty else false)

/-- Matcher for the core `2\s*\+\s*2(\s*=\s*)?$` of the `2+2` pattern. -/
def rule1Core (s : List Char) : Bool :=
  match s with
  | [] => false
  | c :: r =>
    if c = '2' then
      match r.dropWhile isJsWs with
      | [] => false
      | c2 :: r2 =>
        if c2 = '+' then
          match r2.dropWhile isJsWs with
          | [] => false
          | c3 :: r3 => if c3 = '2' then afterTwo r3 else false
        else false
    else false

/-- Matcher for `\s+` followed by further whitespace absorption: at least
one whitespace character, then the maximal run. -/
def wsOnePlus (s : List Char) : Option (List Char) :=
  match s with
  | [] => none
  | c :: r => if isJsWs c then some (r.dropWhile isJsWs) else none

/-- The test `/^(what\s+is\s+)?2\s*\+\s*2(\s*=\s*)?$/i` applied to the
lower-cased message. -/
def rule1Match (s : List Char) : Bool :=
  (match stripLit ['w', 'h', 'a', 't'] s with
   | some r =>
     (match wsOnePlus r with
      | some r1 =>
        (match stripLit ['i', 's'] r1 with
         | some r2 =>
           (match wsOnePlus r2 with
            | some r3 => rule1Core r3
            | none => false)
         | none => false)
      | none => false)
   | none => false) || rule1Core s

/-- The test `/what.*time|current time/i` on the lower-cased message. -/
def timeTest (s : List Char) : Bool :=
  existsAt (fun t =>
    (['w', 'h', 'a', 't'].isPrefixOf t) &&
      dotThen (fun u => ['t', 'i', 'm', 'e'].isPrefixOf u) (t.drop 4)) s ||
  containsSub s ['c', 'u', 'r', 'r', 'e', 'n', 't', ' ', 't', 'i', 'm', 'e']

/-- The test `/what.*date|today.*date|current date/i` on the lower-cased
message. -/
def dateTest (s : List Char) : Bool :=
  existsAt (fun t =>
    (['w', 'h', 'a', 't'].isPrefixOf t) &&
      dotThen (fun u => ['d', 'a', 't', 'e'].isPrefixOf u) (t.drop 4)) s ||
  existsAt (fun t =>
    (['t', 'o', 'd', 'a', 'y'].isPrefixOf t) &&
      dotThen (fun u => ['d', 'a', 't', 'e'].isPrefixOf u) (t.drop 5)) s ||
  containsSub s ['c', 'u', 'r', 'r', 'e', 'n', 't', ' ', 'd', 'a', 't', 'e']

/-- The test `/who.*are.*you/i` on the lower-cased message. -/
def whoAreYouTest (s : List Char) : Bool :=
  existsAt (fun t =>
    (['w', 'h', 'o'].isPrefixOf t) &&
      dotThen (fun u =>
        (['a', 'r', 'e'].isPrefixOf u) &&
          dotThen (fun v => ['y', 'o', 'u'].isPrefixOf v) (u.drop 3))
        (t.drop 3)) s

/-- The test `/how.*work/i` on the lower-cased message. -/
def howWorkTest (s : List Char) : Bool :=
  existsAt (fun t =>
    (['h', 'o', 'w'].isPrefixOf t) &&
      dotThen (fun u => ['w', 'o', 'r', 'k'].isPrefixOf u) (t.drop 3)) s

/-- The test `/thank|thanks/i` on the lower-cased message. -/
def thankTest (s : List Char) : Bool :=
  containsSub s ['t', 'h', 'a', 'n', 'k'] ||
    containsSub s ['t', 'h', 'a', 'n', 'k', 's']

/-- The test `/^i\s*am\s*suhaira$/i.test(message.trim())` of the Easter-egg
rule, matched on the trimmed original message, case-insensitively. -/
def suhairaTest (message : String) : Bool :=
  let l := (jsTrimList message.data).map Char.toLower
  match stripLit ['i'] l with
  | none => false
  | some r1 =>
    match stripLit ['a', 'm'] (r1.dropWhile isJsWs) with
    | none => false
    | some r2 =>
      match stripLit ['s', 'u', 'h', 'a', 'i', 'r', 'a'] (r2.dropWhile isJsWs) with
      | none => false
      | some r3 => r3.isEmpty

example : suhairaTest "  I aM Suhaira " = true := by decide
example : suhairaTest "I am Suhaira!" = false := by decide
example : rule1Match ("what is 2 + 2 =".data.map Char.toLower) = true := by decide
example : rule1Match "2+2".data = true := by decide
example : rule1Match "3+2".data = false := by decide
example : timeTest "tell me what the time is".data = true := by decide
example : timeTest "12 + 7".data = false := by decide
example : firstPair '+' "the sum 12 + 7 + 5".data
    = some (['1', '2'], ['7']) := by decide
example : natOfDigits ['1', '2'] = 12 := by decide

/-! ### Fallback generator (`getSmartFallback`, `fallbackResponses`) -/

/-- The fixed pool of eight generic acknowledgment replies
(`fallbackResponses` in the source). -/
def fallbackResponses : List String :=
  ["🤔 That's interesting! Can you tell me more about that?",
   "👍 I understand. What would you like to know?",
   "💯 That's a good point. How can I help you further?",
   "👀 I see. What else would you like to discuss?",
   "🙏 Thanks for sharing that with me. What's on your mind?",
   "😊 I appreciate you telling me that. How can I assist you?",
   "✅ That makes sense. What would you like to explore next?",
   "👂 I hear you. Is there anything specific I can help with?"]

/-- The fixed greeting reply of the fallback generator. -/
def greetingReply : String :=
  "👋 Hello! Nice to meet you. How can I help you today?"

/-- The fixed how-are-you reply of the fallback generator. -/
def howAreYouReply : String :=
  "😊 I'm doing well, thank you for asking! How are you doing?"

/-- The fixed identity reply of the fallback generator. -/
def identityReply : String :=
  "🤖 I'm Yako, an AI assistant here to help you. What's your name?"

/-- The fixed help reply of the fallback generator. -/
def helpReply : String :=
  "🙌 I'm here to help! What would you like assistance with?"

/-- The fixed farewell reply of the fallback generator. -/
def farewellReply : String :=
  "👋 Goodbye! It was nice chatting with you. Have a great day!"

/-- Model of `getSmartFallback(message)`.  The call
`Math.floor(Math.random() * fallbackResponses.length)` is modelled by the
injected uniformly distributed index `rand : Fin 8`. -/
def getSmartFallback (message : String) (rand : Fin 8) : String :=
  let lowerMessage := lowerStr message
  if strIncludes lowerMessage "hello" || strIncludes lowerMessage "hi" then
    greetingReply
  else if strIncludes lowerMessage "how are you" then
    howAreYouReply
  else if strIncludes lowerMessage "what" && strIncludes lowerMessage "name" then
    identityReply
  else if strIncludes lowerMessage "help" then
    helpReply
  else if strIncludes lowerMessage "bye" || strIncludes lowerMessage "goodbye" then
    farewellReply
  else
    fallbackResponses.getD rand.val ""

/-! ### Knowledge store and retrieval (`retrieveRelevantContext`) -/

/-- A question/answer pair of `knowledge_base.json`. -/
structure KnowledgeEntry where
  question : String
  answer : String
deriving DecidableEq

/-- The order into which the stable JavaScript `sort` with comparator
`(a, b) => b.score - a.score` arranges the scored documents: strictly
higher score first, ties kept in original index order.  On a list whose
indices are pairwise distinct this relation sorts to exactly the same
list as the stable sort-by-score of the source. -/
def scoreRank (p q : Nat × ℚ) : Prop :=
  q.2 < p.2 ∨ (p.2 = q.2 ∧ p.1 ≤ q.1)

instance : DecidableRel scoreRank := fun p q => by
  unfold scoreRank; exact inferInstance

instance : IsTrans (Nat × ℚ) scoreRank := by
  constructor
  intro a b c hab hbc
  rcases hab with h1 | ⟨h1, h1i⟩ <;> rcases hbc with h2 | ⟨h2, h2i⟩
  · exact Or.inl (h2.trans h1)
  · exact Or.inl (h2 ▸ h1)
  · exact Or.inl (h1 ▸ h2)
  · exact Or.inr ⟨h1.trans h2, h1i.trans h2i⟩

instance : IsTotal (Nat × ℚ) scoreRank := by
  constructor
  intro a b
  rcases lt_trichotomy a.2 b.2 with h | h | h
  · exact Or.inr (Or.inl h)
  · rcases Nat.le_total a.1 b.1 with hi | hi
    · exact Or.inl (Or.inr ⟨h, hi⟩)
    · exact Or.inr (Or.inr ⟨h.symm, hi⟩)
  · exact Or.inl (Or.inl h)

/-- The scored documents in the order `tfidf.tfidfs` reports them: one
entry per knowledge-base document, in insertion order.  The TF-IDF measure
itself lives in the external `natural` package, so it enters the model as
the abstract score function; the scores of the source are (non-NaN) IEEE
doubles, a linearly ordered set, modelled by `ℚ`. -/
def scoredDocs (kb : List KnowledgeEntry) (score : Nat → ℚ) : List (Nat × ℚ) :=
  (List.range kb.length).map (fun i => (i, score i))

/-- Model of `retrieveRelevantContext(query, topK)`: score every document, sort by
descending score (stably), keep the first `topK`, drop non-positive
scores, and return the corresponding answers.  An unloadable knowledge
base is the `kb = []` case. -/
def retrieveRelevantContext (kb : List KnowledgeEntry) (score : Nat → ℚ)
    (topK : Nat) : List String :=
  if kb.length = 0 then []
  else
    let sorted := List.insertionSort scoreRank (scoredDocs kb score)
    let top := (sorted.take topK).filter (fun s => 0 < s.2)
    top.map (fun s => (kb.getD s.1 ⟨"", ""⟩).answer)

/-! ### The rule engine (the if/else chain of the chat handler) -/

/-- The two strings the time/date rules interpolate
(`new Date().toLocaleTimeString()` / `toLocaleDateString()`), inputs of
the model since they come from the wall clock. -/
structure RuleEnv where
  timeString : String
  dateString : String

/-- Rendering of the `${result}` text of the division rule, i.e. the decimal rendering
of the JavaScript floating-point quotient.  It is exact in every case a
theorem below touches: `b = 0` gives the IEEE special values ("NaN" for
`0 / 0`, "Infinity" otherwise), and an integer quotient of operands below
`2 ^ 53` prints as a plain integer.  A non-integer quotient prints in
JavaScript as the shortest round-trip decimal of the IEEE double; that
rendering is floating-point behaviour outside this exact embedding and is
represented by a marker string no theorem relies on. -/
def jsDivString (a b : Nat) : String :=
  if b = 0 then (if a = 0 then "NaN" else "Infinity")
  else if a % b = 0 then toString (a / b)
  else "non-integer IEEE-754 quotient (not modelled exactly)"

/-- The fixed Easter-egg reply of the Suhaira rule (source line 189). -/
def easterEggReply : String :=
  "❤️💖💙💚💛💜🧡 OMG! We have the most gorgeous lady in the world talking to us today! 💖❤️💙💚💛💜🧡 How are you doing Cutie Pie? 🧸🎀 You are Yako's Favorite User 💖❤️💙💚💛💜🧡 Talha Sent Flowers For You 🪷🌷🌼🦋✨🌸🌺🦩"

/-- The ordered rule chain of the chat handler (source lines 137-190):
the first matching rule wins; `none` means no rule fired and control
falls through to the provider call / fallback.  Each branch tests and
replies exactly as the source, with `lowerMessage = message.toLowerCase()`;
for the four arithmetic rules the source's `test` succeeds exactly when
`match` does (same pattern, same subject), and the guard
`numbers.length >= 3` always holds on a match (two capture groups), so
the test-then-match pair collapses to one `match` on `firstPair`. -/
def tryRules (renv : RuleEnv) (message : String) : Option String :=
  let l := (lowerStr message).data
  if rule1Match l then some "2 + 2 = 4"
  else if timeTest l then
    some ("The current time is " ++ renv.timeString ++ ".")
  else if dateTest l then
    some ("Today's date is " ++ renv.dateString ++ ".")
  else
    match firstPair '+' l with
    | some (a, b) =>
      some (String.mk a ++ " + " ++ String.mk b ++ " = "
        ++ toString (natOfDigits a + natOfDigits b))
    | none =>
    match firstPair '-' l with
    | some (a, b) =>
      some (String.mk a ++ " - " ++ String.mk b ++ " = "
        ++ toString ((natOfDigits a : Int) - natOfDigits b))
    | none =>
    match firstPair '*' l with
    | some (a, b) =>
      some (String.mk a ++ " × " ++ String.mk b ++ " = "
        ++ toString (natOfDigits a * natOfDigits b))
    | none =>
    match firstPair '/' l with
    | some (a, b) =>
      some (String.mk a ++ " ÷ " ++ String.mk b ++ " = "
        ++ jsDivString (natOfDigits a) (natOfDigits b))
    | none =>
    if whoAreYouTest l then
      some "🤖 I'm Yako, an AI assistant designed to help answer your questions and have conversations."
    else if howWorkTest l then
      some "💡 I work by using advanced natural language processing to understand your questions and provide helpful responses."
    else if thankTest l then
      some "😊 You're welcome! I'm happy to help."
    else if suhairaTest message then
      some easterEggReply
    else none

/-! ### Provider call and response generation -/

/-- Outcome of the single `fetch` to the completions endpoint: a
well-formed success carrying the reply content, or one of the failure
modes (non-ok HTTP status, ok status with a malformed body — which the
source converts to a thrown error — or a rejected fetch).  All failure
modes reach the same `catch` block. -/
inductive ProviderResult
  | success (content : String)
  | httpError (status : Nat)
  | malformedBody
  | networkFailure
deriving DecidableEq

/-- Holds on every outcome the source turns into a thrown error. -/
def providerFailed : ProviderResult → Bool
  | .success _ => false
  | _ => true

/-- Per-request environment: clock strings, whether `GROQ_API_KEY` is
configured, the outcome the provider call would have were it issued, and
the random index for the generic fallback pool. -/
structure ChatEnv where
  ruleEnv : RuleEnv
  apiKeyConfigured : Bool
  provider : ProviderResult
  rand : Fin 8

/-- The reply computation of the chat handler, together with a flag
recording whether the external provider was called (the `fetch` is
executed in exactly one branch).  On a well-formed provider success the
source replies with `data.choices[0].message.content.trim()`; every
provider failure is caught and masked by `getSmartFallback(message)`. -/
def generateResponse (env : ChatEnv) (message : String) : String × Bool :=
  match tryRules env.ruleEnv message with
  | some reply => (reply, false)
  | none =>
    if env.apiKeyConfigured then
      match env.provider with
      | .success content => (jsTrim content, true)
      | _ => (getSmartFallback message env.rand, true)
    else (getSmartFallback message env.rand, false)

/-! ### Session store and the chat endpoint -/

/-- Speaker role of a stored turn. -/
inductive Role
  | user
  | assistant
deriving DecidableEq

/-- One stored turn, `{ role, content }`. -/
structure Turn where
  role : Role
  content : String
deriving DecidableEq

/-- Type of the `conversationHistory` map; absent keys read as `[]`
(`conversationHistory.get(sessionId) || []`). -/
def SessionStore : Type := String → List Turn

/-- Model of `if (history.length > 20) history = history.slice(-20)`. -/
def truncateHistory (h : List Turn) : List Turn :=
  if 20 < h.length then h.drop (h.length - 20) else h

/-- Result of a chat request: HTTP 200 with `{ response }`, or HTTP 400
with the `Message is required` error. -/
inductive ChatResult
  | ok (response : String)
  | badRequest
deriving DecidableEq

/-- The `POST /api/chat` handler.  `body` is the `message` field of the
JSON body (`none` when absent) and `sidHeader` the `x-session-id` header.
Validation happens before any history access; afterwards the user turn is
appended, the reply computed, the assistant turn appended, the history
truncated to the last 20 turns and stored back under the same key. -/
def handleChat (env : ChatEnv) (store : SessionStore) (sidHeader : Option String)
    (body : Option String) : ChatResult × SessionStore :=
  match body with
  | none => (.badRequest, store)
  | some message =>
    if jsTrim message = "" then (.badRequest, store)
    else
      let sessionId := sidHeader.getD "default"
      let withUser := store sessionId ++ [⟨.user, message⟩]
      let botResponse := (generateResponse env message).1
      let withBot := withUser ++ [⟨.assistant, botResponse⟩]
      (.ok botResponse,
       fun sid => if sid = sessionId then truncateHistory withBot else store sid)

/-- One inbound request: its environment, optional session header and
optional message body. -/
structure Request where
  env : ChatEnv
  sidHeader : Option String
  body : Option String

/-- A sequential (non-interleaved) run of requests against the initially
empty store. -/
def runRequests (reqs : List Request) : SessionStore :=
  reqs.foldl (fun st r => (handleChat r.env st r.sidHeader r.body).2)
    (fun _ => [])

/-! ### Character-class lemmas -/

lemma isJsWs_iff {c : Char} : isJsWs c = true ↔ c ∈ jsWhitespaceChars := by
  simp [isJsWs]

lemma isAsciiDigit_iff {c : Char} : isAsciiDigit c = true ↔ c ∈ asciiDigits := by
  simp [isAsciiDigit]

lemma ws_not_digit {c : Char} (h : isJsWs c = true) : isAsciiDigit c = false := by
  have hall : ∀ d ∈ jsWhitespaceChars, isAsciiDigit d = false := by decide
  exact hall c (isJsWs_iff.mp h)

lemma digit_not_ws {c : Char} (h : isAsciiDigit c = true) : isJsWs c = false := by
  have hall : ∀ d ∈ asciiDigits, isJsWs d = false := by decide
  exact hall c (isAsciiDigit_iff.mp h)

lemma ws_toLower {c : Char} (h : isJsWs c = true) : c.toLower = c := by
  have hall : ∀ d ∈ jsWhitespaceChars, d.toLower = d := by decide
  exact hall c (isJsWs_iff.mp h)

lemma digit_toLower {c : Char} (h : isAsciiDigit c = true) : c.toLower = c := by
  have hall : ∀ d ∈ asciiDigits, d.toLower = d := by decide
  exact hall c (isAsciiDigit_iff.mp h)

lemma all_mem_imp {l : List Char} {p : Char → Bool} (h : l.all p = true) :
    ∀ c ∈ l, p c = true := by
  rw [List.all_eq_true] at h
  exact h

/-! ### Lemmas about the matcher combinators -/

lemma existsAt_iff {p : List Char → Bool} {s : List Char} :
    existsAt p s = true ↔ ∃ t, t <:+ s ∧ p t = true := by
  induction s with
  | nil =>
    simp only [existsAt]
    constructor
    · intro h
      exact ⟨[], List.suffix_rfl, h⟩
    · rintro ⟨t, ht, hp⟩
      rw [List.suffix_nil] at ht
      exact ht ▸ hp
  | cons c r ih =>
    simp only [existsAt, Bool.or_eq_true, ih]
    constructor
    · rintro (h | ⟨t, ht, hp⟩)
      · exact ⟨c :: r, List.suffix_rfl, h⟩
      · exact ⟨t, ht.trans (List.suffix_cons c r), hp⟩
    · rintro ⟨t, ht, hp⟩
      rcases List.suffix_cons_iff.mp ht with rfl | ht'
      · exact Or.inl hp
      · exact Or.inr ⟨t, ht', hp⟩

lemma mem_of_containsSub {s w : List Char} (h : containsSub s w = true) :
    ∀ c ∈ w, c ∈ s := by
  intro c hc
  rcases existsAt_iff.mp h with ⟨t, hts, hp⟩
  have hw : w <+: t := List.isPrefixOf_iff_prefix.mp hp
  exact hts.sublist.subset (hw.sublist.subset hc)

lemma containsSub_false {s w : List Char} {c : Char} (hc : c ∈ w) (hs : c ∉ s) :
    containsSub s w = false := by
  cases h : containsSub s w
  · rfl
  · exact absurd (mem_of_containsSub h c hc) hs

lemma stripLit_eq_append {w : List Char} : ∀ {s r : List Char},
    stripLit w s = some r → s = w ++ r := by
  induction w with
  | nil =>
    intro s r h
    have : s = r := by simpa [stripLit] using h
    simpa using this
  | cons c w ih =>
    intro s r h
    cases s with
    | nil => simp [stripLit] at h
    | cons d s =>
      by_cases hd : d = c
      · subst hd
        simp only [stripLit, if_pos rfl] at h
        simpa using ih h
      · simp [stripLit, hd] at h

lemma mem_of_isPrefixOf_suffix {w t s : List Char} {c : Char}
    (hp : w.isPrefixOf t = true) (hts : t <:+ s) (hc : c ∈ w) : c ∈ s :=
  hts.sublist.subset ((List.isPrefixOf_iff_prefix.mp hp).sublist.subset hc)

/-! ### Character-membership consequences of each rule test firing -/

lemma timeTest_chars {s : List Char} (h : timeTest s = true) :
    'w' ∈ s ∨ 'c' ∈ s := by
  simp only [timeTest, Bool.or_eq_true] at h
  rcases h with h | h
  · rcases existsAt_iff.mp h with ⟨t, hts, hp⟩
    rw [Bool.and_eq_true] at hp
    exact Or.inl (mem_of_isPrefixOf_suffix hp.1 hts (by decide))
  · exact Or.inr (mem_of_containsSub h 'c' (by decide))

lemma dateTest_chars {s : List Char} (h : dateTest s = true) :
    'w' ∈ s ∨ 't' ∈ s ∨ 'c' ∈ s := by
  simp only [dateTest, Bool.or_eq_true] at h
  rcases h with (h | h) | h
  · rcases existsAt_iff.mp h with ⟨t, hts, hp⟩
    rw [Bool.and_eq_true] at hp
    exact Or.inl (mem_of_isPrefixOf_suffix hp.1 hts (by decide))
  · rcases existsAt_iff.mp h with ⟨t, hts, hp⟩
    rw [Bool.and_eq_true] at hp
    exact Or.inr (Or.inl (mem_of_isPrefixOf_suffix hp.1 hts (by decide)))
  · exact Or.inr (Or.inr (mem_of_containsSub h 'c' (by decide)))

lemma whoAreYouTest_chars {s : List Char} (h : whoAreYouTest s = true) :
    'w' ∈ s := by
  simp only [whoAreYouTest] at h
  rcases existsAt_iff.mp h with ⟨t, hts, hp⟩
  rw [Bool.and_eq_true] at hp
  exact mem_of_isPrefixOf_suffix hp.1 hts (by decide)

lemma howWorkTest_chars {s : List Char} (h : howWorkTest s = true) :
    'o' ∈ s := by
  simp only [howWorkTest] at h
  rcases existsAt_iff.mp h with ⟨t, hts, hp⟩
  rw [Bool.and_eq_true] at hp
  exact mem_of_isPrefixOf_suffix hp.1 hts (by decide)

lemma thankTest_chars {s : List Char} (h : thankTest s = true) :
    't' ∈ s := by
  simp only [thankTest, Bool.or_eq_true] at h
  rcases h with h | h
  · exact mem_of_containsSub h 't' (by decide)
  · exact mem_of_containsSub h 't' (by decide)

lemma rule1Core_chars {s : List Char} (h : rule1Core s = true) : '+' ∈ s := by
  unfold rule1Core at h
  split at h
  · simp at h
  rename_i c r
  split at h
  · rename_i hc2
    split at h
    · simp at h
    · rename_i c2 r2 hdw
      split at h
      · rename_i hplus
        have hmem : c2 ∈ r.dropWhile isJsWs := by
          rw [hdw]; exact List.mem_cons_self _ _
        have : c2 ∈ r := (List.dropWhile_sublist _).subset hmem
        exact hplus ▸ List.mem_cons_of_mem c this
      · simp at h
  · simp at h

lemma rule1Match_chars {s : List Char} (h : rule1Match s = true) :
    'w' ∈ s ∨ '+' ∈ s := by
  simp only [rule1Match, Bool.or_eq_true] at h
  rcases h with h | h
  · split at h
    · rename_i r hw
      have := stripLit_eq_append hw
      subst this
      exact Or.inl (by simp)
    · simp at h
  · exact Or.inr (rule1Core_chars h)

lemma pairAt_chars {op : Char} {t : List Char} {x : List Char × List Char}
    (h : pairAt op t = some x) :
    op ∈ t ∧ ∃ d ∈ t, isAsciiDigit d = true := by
  unfold pairAt at h
  split at h
  · simp at h
  · rename_i hne
    split at h
    · simp at h
    · rename_i c r hdw
      split at h
      · rename_i hop
        constructor
        · have hmem : c ∈ (t.dropWhile isAsciiDigit).dropWhile isJsWs := by
            rw [hdw]; exact List.mem_cons_self _ _
          have : c ∈ t :=
            (((List.dropWhile_sublist _).trans (List.dropWhile_sublist _)).subset) hmem
          exact hop ▸ this
        · have hne2 : t.takeWhile isAsciiDigit ≠ [] := by
            intro hnil
            exact hne (by simp [hnil])
          rcases List.exists_mem_of_ne_nil _ hne2 with ⟨d, hd⟩
          exact ⟨d, (List.takeWhile_sublist _).subset hd, List.mem_takeWhile_imp hd⟩
      · simp at h

lemma firstPair_suffix {op : Char} {s : List Char} {x : List Char × List Char}
    (h : firstPair op s = some x) :
    ∃ t, t <:+ s ∧ pairAt op t = some x := by
  induction s with
  | nil => simp [firstPair] at h
  | cons c r ih =>
    rw [firstPair] at h
    split at h
    · rename_i y hy
      exact ⟨c :: r, List.suffix_rfl, by rw [hy, h]⟩
    · rcases ih h with ⟨t, hts, hp⟩
      exact ⟨t, hts.trans (List.suffix_cons c r), hp⟩

lemma firstPair_chars {op : Char} {s : List Char} {x : List Char × List Char}
    (h : firstPair op s = some x) :
    op ∈ s ∧ ∃ d ∈ s, isAsciiDigit d = true := by
  rcases firstPair_suffix h with ⟨t, hts, hp⟩
  rcases pairAt_chars hp with ⟨hop, d, hd, hdig⟩
  exact ⟨hts.sublist.subset hop, d, hts.sublist.subset hd, hdig⟩

lemma firstPair_eq_none {op : Char} {s : List Char} (hop : op ∉ s) :
    firstPair op s = none := by
  cases h : firstPair op s with
  | none => rfl
  | some x => exact absurd (firstPair_chars h).1 hop

lemma firstPair_eq_none_of_no_digit {op : Char} {s : List Char}
    (hs : ∀ d ∈ s, isAsciiDigit d = false) : firstPair op s = none := by
  cases h : firstPair op s with
  | none => rfl
  | some x =>
    rcases (firstPair_chars h).2 with ⟨d, hd, hdig⟩
    rw [hs d hd] at hdig
    exact absurd hdig (by simp)

/-! ### Evaluating the matchers on a message of the pure shape
`digits ++ ws ++ op ++ ws ++ digits` -/

lemma takeWhile_digit_ws_op {w tail : List Char} {op : Char}
    (hw : ∀ c ∈ w, isJsWs c = true) (hopd : isAsciiDigit op = false) :
    (w ++ op :: tail).takeWhile isAsciiDigit = [] := by
  cases w with
  | nil => simp [List.takeWhile_cons, hopd]
  | cons c cs =>
    have hc : isAsciiDigit c = false := ws_not_digit (hw c (by simp))
    simp [List.takeWhile_cons, hc]

lemma dropWhile_digit_ws_op {w tail : List Char} {op : Char}
    (hw : ∀ c ∈ w, isJsWs c = true) (hopd : isAsciiDigit op = false) :
    (w ++ op :: tail).dropWhile isAsciiDigit = w ++ op :: tail := by
  cases w with
  | nil => simp [List.dropWhile_cons, hopd]
  | cons c cs =>
    have hc : isAsciiDigit c = false := ws_not_digit (hw c (by simp))
    simp [List.dropWhile_cons, hc]

lemma dropWhile_ws_op {w tail : List Char} {op : Char}
    (hw : ∀ c ∈ w, isJsWs c = true) (hopw : isJsWs op = false) :
    (w ++ op :: tail).dropWhile isJsWs = op :: tail := by
  rw [List.dropWhile_append_of_pos hw]
  simp [List.dropWhile_cons, hopw]

lemma dropWhile_ws_digits {w b : List Char}
    (hw : ∀ c ∈ w, isJsWs c = true) (hb : b ≠ [])
    (hbd : ∀ c ∈ b, isAsciiDigit c = true) :
    (w ++ b).dropWhile isJsWs = b := by
  rw [List.dropWhile_append_of_pos hw]
  cases b with
  | nil => simp
  | cons c cs =>
    have hc : isJsWs c = false := digit_not_ws (hbd c (by simp))
    simp [List.dropWhile_cons, hc]

lemma pairAt_pure {op : Char} {a w1 w2 b : List Char}
    (ha : a ≠ []) (hb : b ≠ [])
    (had : a.all isAsciiDigit = true) (hbd : b.all isAsciiDigit = true)
    (hw1 : w1.all isJsWs = true) (hw2 : w2.all isJsWs = true)
    (hopd : isAsciiDigit op = false) (hopw : isJsWs op = false) :
    pairAt op (a ++ (w1 ++ op :: (w2 ++ b))) = some (a, b) := by
  have hA := all_mem_imp had
  have hB := all_mem_imp hbd
  have hW1 := all_mem_imp hw1
  have hW2 := all_mem_imp hw2
  have h1 : (a ++ (w1 ++ op :: (w2 ++ b))).takeWhile isAsciiDigit = a := by
    rw [List.takeWhile_append_of_pos hA, takeWhile_digit_ws_op hW1 hopd,
      List.append_nil]
  have h2 : (a ++ (w1 ++ op :: (w2 ++ b))).dropWhile isAsciiDigit
      = w1 ++ op :: (w2 ++ b) := by
    rw [List.dropWhile_append_of_pos hA, dropWhile_digit_ws_op hW1 hopd]
  have h4 : (w2 ++ b).dropWhile isJsWs = b := dropWhile_ws_digits hW2 hb hB
  have h5 : b.takeWhile isAsciiDigit = b := List.takeWhile_eq_self_iff.mpr hB
  unfold pairAt
  rw [h1, h2, dropWhile_ws_op hW1 hopw]
  have hae : a.isEmpty = false := by simpa [List.isEmpty_iff] using ha
  rw [hae]
  simp only [Bool.false_eq_true, if_false, if_pos rfl, h4, h5]
  have hbe : b.isEmpty = false := by simpa [List.isEmpty_iff] using hb
  rw [hbe]
  simp

lemma firstPair_pure {op : Char} {a w1 w2 b : List Char}
    (ha : a ≠ []) (hb : b ≠ [])
    (had : a.all isAsciiDigit = true) (hbd : b.all isAsciiDigit = true)
    (hw1 : w1.all isJsWs = true) (hw2 : w2.all isJsWs = true)
    (hopd : isAsciiDigit op = false) (hopw : isJsWs op = false) :
    firstPair op (a ++ (w1 ++ op :: (w2 ++ b))) = some (a, b) := by
  have hp := pairAt_pure ha hb had hbd hw1 hw2 hopd hopw
  obtain ⟨a0, arest, rfl⟩ := List.exists_cons_of_ne_nil ha
  rw [List.cons_append] at hp ⊢
  rw [firstPair, hp]

lemma pure_charset {a w1 w2 b : List Char} {op : Char}
    (had : a.all isAsciiDigit = true) (hbd : b.all isAsciiDigit = true)
    (hw1 : w1.all isJsWs = true) (hw2 : w2.all isJsWs = true) :
    ∀ c ∈ a ++ (w1 ++ op :: (w2 ++ b)),
      isAsciiDigit c = true ∨ isJsWs c = true ∨ c = op := by
  intro c hc
  simp only [List.mem_append, List.mem_cons] at hc
  rcases hc with h | h | h | h | h
  · exact Or.inl (all_mem_imp had c h)
  · exact Or.inr (Or.inl (all_mem_imp hw1 c h))
  · exact Or.inr (Or.inr h)
  · exact Or.inr (Or.inl (all_mem_imp hw2 c h))
  · exact Or.inl (all_mem_imp hbd c h)

lemma not_mem_of_charset {l : List Char} {op x : Char}
    (h : ∀ c ∈ l, isAsciiDigit c = true ∨ isJsWs c = true ∨ c = op)
    (hxd : isAsciiDigit x = false) (hxw : isJsWs x = false) (hxop : x ≠ op) :
    x ∉ l := by
  intro hx
  rcases h x hx with h1 | h1 | h1
  · rw [hxd] at h1
    exact absurd h1 (by simp)
  · rw [hxw] at h1
    exact absurd h1 (by simp)
  · exact hxop h1

lemma map_toLower_of_charset {l : List Char} {op : Char}
    (h : ∀ c ∈ l, isAsciiDigit c = true ∨ isJsWs c = true ∨ c = op)
    (hop : op.toLower = op) : l.map Char.toLower = l := by
  have hfix : ∀ c ∈ l, c.toLower = id c := by
    intro c hc
    rcases h c hc with hd | hw | rfl
    · exact digit_toLower hd
    · exact ws_toLower hw
    · exact hop
  rw [List.map_congr_left hfix, List.map_id]

lemma rule1Match_eq_false {s : List Char}
    (hw : 'w' ∉ s) (hc : rule1Core s = false) : rule1Match s = false := by
  simp only [rule1Match, hc, Bool.or_false]
  cases hst : stripLit ['w', 'h', 'a', 't'] s with
  | none => rfl
  | some r =>
    have : 'w' ∈ s := by
      rw [stripLit_eq_append hst]
      simp
    exact absurd this hw

lemma rule1Core_pure_plus {a w1 w2 b : List Char}
    (ha : a ≠ []) (hb : b ≠ [])
    (had : a.all isAsciiDigit = true) (hbd : b.all isAsciiDigit = true)
    (hw1 : w1.all isJsWs = true) (hw2 : w2.all isJsWs = true) :
    rule1Core (a ++ (w1 ++ '+' :: (w2 ++ b))) = true ↔ (a = ['2'] ∧ b = ['2']) := by
  have hA := all_mem_imp had
  have hB := all_mem_imp hbd
  have hW1 := all_mem_imp hw1
  have hW2 := all_mem_imp hw2
  obtain ⟨a0, arest, rfl⟩ := List.exists_cons_of_ne_nil ha
  obtain ⟨b0, brest, rfl⟩ := List.exists_cons_of_ne_nil hb
  rw [List.cons_append]
  constructor
  · intro h
    simp only [rule1Core] at h
    by_cases h0 : a0 = '2'
    · subst h0
      rw [if_pos rfl] at h
      cases arest with
      | cons d drest =>
        have hd : isAsciiDigit d = true := hA d (by simp)
        have hdw : isJsWs d = false := digit_not_ws hd
        rw [List.cons_append, List.dropWhile_cons_of_neg (by simp [hdw])] at h
        have hdp : d ≠ '+' := by
          intro hdeq
          rw [hdeq] at hd
          exact absurd hd (by decide)
        dsimp only at h
        rw [if_neg hdp] at h
        exact absurd h (by simp)
      | nil =>
        rw [List.nil_append, dropWhile_ws_op hW1 (by decide)] at h
        dsimp only at h
        rw [if_pos rfl] at h
        have h4 : (w2 ++ b0 :: brest).dropWhile isJsWs = b0 :: brest :=
          dropWhile_ws_digits hW2 (by simp) hB
        rw [h4] at h
        dsimp only at h
        by_cases hb0 : b0 = '2'
        · subst hb0
          rw [if_pos rfl] at h
          cases brest with
          | nil => exact ⟨rfl, rfl⟩
          | cons e erest =>
            have he : isAsciiDigit e = true := hB e (by simp)
            have hew : isJsWs e = false := digit_not_ws he
            have hee : e ≠ '=' := by
              intro heeq
              rw [heeq] at he
              exact absurd he (by decide)
            simp only [afterTwo, List.isEmpty_cons, Bool.false_or] at h
            rw [List.dropWhile_cons_of_neg (by simp [hew])] at h
            dsimp only at h
            rw [if_neg hee] at h
            exact absurd h (by simp)
        · rw [if_neg hb0] at h
          exact absurd h (by simp)
    · rw [if_neg h0] at h
      exact absurd h (by simp)
  · rintro ⟨hA2, hB2⟩
    have ha0 : a0 = '2' := by
      have := congrArg (fun l => l.head?) hA2
      simpa using this
    have harest : arest = [] := by
      have := congrArg (fun l => l.tail) hA2
      simpa using this
    have hb0 : b0 = '2' := by
      have := congrArg (fun l => l.head?) hB2
      simpa using this
    have hbrest : brest = [] := by
      have := congrArg (fun l => l.tail) hB2
      simpa using this
    subst ha0 harest hb0 hbrest
    simp only [rule1Core, List.nil_append]
    rw [dropWhile_ws_op hW1 (by decide)]
    dsimp only
    rw [if_pos rfl, dropWhile_ws_digits hW2 (by simp) hB]
    simp [afterTwo]

lemma timeTest_false_of {s : List Char} (hw : 'w' ∉ s) (hc : 'c' ∉ s) :
    timeTest s = false := by
  cases h : timeTest s with
  | false => rfl
  | true =>
    rcases timeTest_chars h with hm | hm
    · exact absurd hm hw
    · exact absurd hm hc

lemma dateTest_false_of {s : List Char} (hw : 'w' ∉ s) (ht : 't' ∉ s)
    (hc : 'c' ∉ s) : dateTest s = false := by
  cases h : dateTest s with
  | false => rfl
  | true =>
    rcases dateTest_chars h with hm | hm | hm
    · exact absurd hm hw
    · exact absurd hm ht
    · exact absurd hm hc

lemma rule1Core_false_of_no_plus {s : List Char} (h : '+' ∉ s) :
    rule1Core s = false := by
  cases hc : rule1Core s with
  | false => rfl
  | true => exact absurd (rule1Core_chars hc) h

lemma tryRules_pure_add (renv : RuleEnv) {a w1 w2 b : List Char}
    (ha : a ≠ []) (hb : b ≠ [])
    (had : a.all isAsciiDigit = true) (hbd : b.all isAsciiDigit = true)
    (hw1 : w1.all isJsWs = true) (hw2 : w2.all isJsWs = true) :
    tryRules renv (String.mk (a ++ (w1 ++ '+' :: (w2 ++ b))))
      = some (String.mk a ++ " + " ++ String.mk b ++ " = "
          ++ toString (natOfDigits a + natOfDigits b)) := by
  have hch : ∀ c ∈ a ++ (w1 ++ '+' :: (w2 ++ b)),
      isAsciiDigit c = true ∨ isJsWs c = true ∨ c = '+' :=
    pure_charset had hbd hw1 hw2
  have hlow : (lowerStr (String.mk (a ++ (w1 ++ '+' :: (w2 ++ b))))).data
      = a ++ (w1 ++ '+' :: (w2 ++ b)) :=
    map_toLower_of_charset hch (by decide)
  have hnw : 'w' ∉ a ++ (w1 ++ '+' :: (w2 ++ b)) :=
    not_mem_of_charset hch (by decide) (by decide) (by decide)
  have hnc : 'c' ∉ a ++ (w1 ++ '+' :: (w2 ++ b)) :=
    not_mem_of_charset hch (by decide) (by decide) (by decide)
  have hnt : 't' ∉ a ++ (w1 ++ '+' :: (w2 ++ b)) :=
    not_mem_of_charset hch (by decide) (by decide) (by decide)
  have htime := timeTest_false_of hnw hnc
  have hdate := dateTest_false_of hnw hnt hnc
  by_cases h22 : a = ['2'] ∧ b = ['2']
  · obtain ⟨rfl, rfl⟩ := h22
    have hr1 : rule1Match (['2'] ++ (w1 ++ '+' :: (w2 ++ ['2']))) = true := by
      have hcore := (rule1Core_pure_plus ha hb had hbd hw1 hw2).mpr ⟨rfl, rfl⟩
      simp only [rule1Match, Bool.or_eq_true]
      exact Or.inr hcore
    simp only [tryRules]
    rw [hlow, hr1]
    simp only [if_true]
    have : ("2 + 2 = 4" : String)
        = String.mk ['2'] ++ " + " ++ String.mk ['2'] ++ " = "
          ++ toString (natOfDigits ['2'] + natOfDigits ['2']) := by decide
    rw [this]
  · have hcore : rule1Core (a ++ (w1 ++ '+' :: (w2 ++ b))) = false := by
      cases hc : rule1Core (a ++ (w1 ++ '+' :: (w2 ++ b))) with
      | false => rfl
      | true =>
        exact absurd ((rule1Core_pure_plus ha hb had hbd hw1 hw2).mp hc) h22
    have hr1 : rule1Match (a ++ (w1 ++ '+' :: (w2 ++ b))) = false :=
      rule1Match_eq_false hnw hcore
    have hfp : firstPair '+' (a ++ (w1 ++ '+' :: (w2 ++ b))) = some (a, b) :=
      firstPair_pure ha hb had hbd hw1 hw2 (by decide) (by decide)
    simp only [tryRules]
    rw [hlow, hr1, htime, hdate, hfp]
    rfl

lemma tryRules_pure_sub (renv : RuleEnv) {a w1 w2 b : List Char}
    (ha : a ≠ []) (hb : b ≠ [])
    (had : a.all isAsciiDigit = true) (hbd : b.all isAsciiDigit = true)
    (hw1 : w1.all isJsWs = true) (hw2 : w2.all isJsWs = true) :
    tryRules renv (String.mk (a ++ (w1 ++ '-' :: (w2 ++ b))))
      = some (String.mk a ++ " - " ++ String.mk b ++ " = "
          ++ toString ((natOfDigits a : Int) - natOfDigits b)) := by
  have hch : ∀ c ∈ a ++ (w1 ++ '-' :: (w2 ++ b)),
      isAsciiDigit c = true ∨ isJsWs c = true ∨ c = '-' :=
    pure_charset had hbd hw1 hw2
  have hlow : (lowerStr (String.mk (a ++ (w1 ++ '-' :: (w2 ++ b))))).data
      = a ++ (w1 ++ '-' :: (w2 ++ b)) :=
    map_toLower_of_charset hch (by decide)
  have hnw : 'w' ∉ a ++ (w1 ++ '-' :: (w2 ++ b)) :=
    not_mem_of_charset hch (by decide) (by decide) (by decide)
  have hnc : 'c' ∉ a ++ (w1 ++ '-' :: (w2 ++ b)) :=
    not_mem_of_charset hch (by decide) (by decide) (by decide)
  have hnt : 't' ∉ a ++ (w1 ++ '-' :: (w2 ++ b)) :=
    not_mem_of_charset hch (by decide) (by decide) (by decide)
  have hnplus : '+' ∉ a ++ (w1 ++ '-' :: (w2 ++ b)) :=
    not_mem_of_charset hch (by decide) (by decide) (by decide)
  have hr1 : rule1Match (a ++ (w1 ++ '-' :: (w2 ++ b))) = false :=
    rule1Match_eq_false hnw (rule1Core_false_of_no_plus hnplus)
  have htime := timeTest_false_of hnw hnc
  have hdate := dateTest_false_of hnw hnt hnc
  have hfpp : firstPair '+' (a ++ (w1 ++ '-' :: (w2 ++ b))) = none :=
    firstPair_eq_none hnplus
  have hfp : firstPair '-' (a ++ (w1 ++ '-' :: (w2 ++ b))) = some (a, b) :=
    firstPair_pure ha hb had hbd hw1 hw2 (by decide) (by decide)
  simp only [tryRules]
  rw [hlow, hr1, htime, hdate, hfpp, hfp]
  rfl

lemma tryRules_pure_mul (renv : RuleEnv) {a w1 w2 b : List Char}
    (ha : a ≠ []) (hb : b ≠ [])
    (had : a.all isAsciiDigit = true) (hbd : b.all isAsciiDigit = true)
    (hw1 : w1.all isJsWs = true) (hw2 : w2.all isJsWs = true) :
    tryRules renv (String.mk (a ++ (w1 ++ '*' :: (w2 ++ b))))
      = some (String.mk a ++ " × " ++ String.mk b ++ " = "
          ++ toString (natOfDigits a * natOfDigits b)) := by
  have hch : ∀ c ∈ a ++ (w1 ++ '*' :: (w2 ++ b)),
      isAsciiDigit c = true ∨ isJsWs c = true ∨ c = '*' :=
    pure_charset had hbd hw1 hw2
  have hlow : (lowerStr (String.mk (a ++ (w1 ++ '*' :: (w2 ++ b))))).data
      = a ++ (w1 ++ '*' :: (w2 ++ b)) :=
    map_toLower_of_charset hch (by decide)
  have hnw : 'w' ∉ a ++ (w1 ++ '*' :: (w2 ++ b)) :=
    not_mem_of_charset hch (by decide) (by decide) (by decide)
  have hnc : 'c' ∉ a ++ (w1 ++ '*' :: (w2 ++ b)) :=
    not_mem_of_charset hch (by decide) (by decide) (by decide)
  have hnt : 't' ∉ a ++ (w1 ++ '*' :: (w2 ++ b)) :=
    not_mem_of_charset hch (by decide) (by decide) (by decide)
  have hnplus : '+' ∉ a ++ (w1 ++ '*' :: (w2 ++ b)) :=
    not_mem_of_charset hch (by decide) (by decide) (by decide)
  have hnminus : '-' ∉ a ++ (w1 ++ '*' :: (w2 ++ b)) :=
    not_mem_of_charset hch (by decide) (by decide) (by decide)
  have hr1 : rule1Match (a ++ (w1 ++ '*' :: (w2 ++ b))) = false :=
    rule1Match_eq_false hnw (rule1Core_false_of_no_plus hnplus)
  have htime := timeTest_false_of hnw hnc
  have hdate := dateTest_false_of hnw hnt hnc
  have hfp : firstPair '*' (a ++ (w1 ++ '*' :: (w2 ++ b))) = some (a, b) :=
    firstPair_pure ha hb had hbd hw1 hw2 (by decide) (by decide)
  simp only [tryRules]
  rw [hlow, hr1, htime, hdate, firstPair_eq_none hnplus,
    firstPair_eq_none hnminus, hfp]
  rfl

lemma tryRules_pure_div (renv : RuleEnv) {a w1 w2 b : List Char}
    (ha : a ≠ []) (hb : b ≠ [])
    (had : a.all isAsciiDigit = true) (hbd : b.all isAsciiDigit = true)
    (hw1 : w1.all isJsWs = true) (hw2 : w2.all isJsWs = true) :
    tryRules renv (String.mk (a ++ (w1 ++ '/' :: (w2 ++ b))))
      = some (String.mk a ++ " ÷ " ++ String.mk b ++ " = "
          ++ jsDivString (natOfDigits a) (natOfDigits b)) := by
  have hch : ∀ c ∈ a ++ (w1 ++ '/' :: (w2 ++ b)),
      isAsciiDigit c = true ∨ isJsWs c = true ∨ c = '/' :=
    pure_charset had hbd hw1 hw2
  have hlow : (lowerStr (String.mk (a ++ (w1 ++ '/' :: (w2 ++ b))))).data
      = a ++ (w1 ++ '/' :: (w2 ++ b)) :=
    map_toLower_of_charset hch (by decide)
  have hnw : 'w' ∉ a ++ (w1 ++ '/' :: (w2 ++ b)) :=
    not_mem_of_charset hch (by decide) (by decide) (by decide)
  have hnc : 'c' ∉ a ++ (w1 ++ '/' :: (w2 ++ b)) :=
    not_mem_of_charset hch (by decide) (by decide) (by decide)
  have hnt : 't' ∉ a ++ (w1 ++ '/' :: (w2 ++ b)) :=
    not_mem_of_charset hch (by decide) (by decide) (by decide)
  have hnplus : '+' ∉ a ++ (w1 ++ '/' :: (w2 ++ b)) :=
    not_mem_of_charset hch (by decide) (by decide) (by decide)
  have hnminus : '-' ∉ a ++ (w1 ++ '/' :: (w2 ++ b)) :=
    not_mem_of_charset hch (by decide) (by decide) (by decide)
  have hnstar : '*' ∉ a ++ (w1 ++ '/' :: (w2 ++ b)) :=
    not_mem_of_charset hch (by decide) (by decide) (by decide)
  have hr1 : rule1Match (a ++ (w1 ++ '/' :: (w2 ++ b))) = false :=
    rule1Match_eq_false hnw (rule1Core_false_of_no_plus hnplus)
  have htime := timeTest_false_of hnw hnc
  have hdate := dateTest_false_of hnw hnt hnc
  have hfp : firstPair '/' (a ++ (w1 ++ '/' :: (w2 ++ b))) = some (a, b) :=
    firstPair_pure ha hb had hbd hw1 hw2 (by decide) (by decide)
  simp only [tryRules]
  rw [hlow, hr1, htime, hdate, firstPair_eq_none hnplus,
    firstPair_eq_none hnminus, firstPair_eq_none hnstar, hfp]
  rfl

/-! ### Session-store lemmas -/

lemma truncateHistory_suffix (h : List Turn) : truncateHistory h <:+ h := by
  unfold truncateHistory
  split
  · exact List.drop_suffix _ _
  · exact List.suffix_rfl

lemma truncateHistory_length_le (h : List Turn) :
    (truncateHistory h).length ≤ 20 := by
  unfold truncateHistory
  split
  · rename_i hlen
    rw [List.length_drop]
    omega
  · rename_i hlen
    omega

lemma truncateHistory_eq_of_le {h : List Turn} (hlen : h.length ≤ 20) :
    truncateHistory h = h := by
  unfold truncateHistory
  rw [if_neg (by omega)]

lemma truncateHistory_length_eq {h : List Turn} (hlen : 20 ≤ h.length) :
    (truncateHistory h).length = 20 := by
  unfold truncateHistory
  split
  · rename_i hgt
    rw [List.length_drop]
    omega
  · rename_i hgt
    omega

/-- Unfolding of a valid chat request: the stored history for the resolved
session becomes the truncation of the old history plus the new user and
assistant turns, and other sessions are untouched. -/
lemma handleChat_valid (env : ChatEnv) (store : SessionStore)
    (sidHeader : Option String) (m : String) (hm : jsTrim m ≠ "") :
    handleChat env store sidHeader (some m)
      = (.ok (generateResponse env m).1,
         fun sid =>
           if sid = sidHeader.getD "default" then
             truncateHistory (store (sidHeader.getD "default")
               ++ [⟨.user, m⟩, ⟨.assistant, (generateResponse env m).1⟩])
           else store sid) := by
  simp only [handleChat, if_neg hm]
  refine Prod.ext rfl (funext fun sid => ?_)
  dsimp only
  split
  · rw [List.append_assoc]
    rfl
  · rfl

/-- Invalid chat requests leave the store untouched and answer 400. -/
lemma handleChat_invalid (env : ChatEnv) (store : SessionStore)
    (sidHeader : Option String) {body : Option String}
    (hbody : body = none ∨ ∃ m, body = some m ∧ jsTrim m = "") :
    handleChat env store sidHeader body = (.badRequest, store) := by
  rcases hbody with rfl | ⟨m, rfl, hm⟩
  · rfl
  · simp only [handleChat, if_pos hm]

/-- Any property of histories that holds for the empty history and is
preserved by appending a user/assistant pair and truncating holds for
every stored history after any sequential run of requests. -/
lemma runRequests_inv (P : List Turn → Prop) (h0 : P [])
    (hstep : ∀ h m r, P h →
      P (truncateHistory (h ++ [⟨.user, m⟩, ⟨.assistant, r⟩]))) :
    ∀ reqs sid, P ((runRequests reqs) sid) := by
  have main : ∀ (reqs : List Request) (st : SessionStore),
      (∀ sid, P (st sid)) →
      ∀ sid, P ((reqs.foldl
        (fun st r => (handleChat r.env st r.sidHeader r.body).2) st) sid) := by
    intro reqs
    induction reqs with
    | nil =>
      intro st hst sid
      exact hst sid
    | cons r rs ih =>
      intro st hst sid
      rw [List.foldl_cons]
      apply ih
      intro sid2
      rcases hb : r.body with _ | m
      · rw [handleChat_invalid r.env st r.sidHeader (Or.inl rfl)]
        exact hst sid2
      · by_cases hm : jsTrim m = ""
        · rw [handleChat_invalid r.env st r.sidHeader (Or.inr ⟨m, rfl, hm⟩)]
          exact hst sid2
        · rw [handleChat_valid r.env st r.sidHeader m hm]
          dsimp only
          split
          · exact hstep _ _ _ (hst _)
          · exact hst sid2
  intro reqs sid
  exact main reqs (fun _ => []) (fun _ => h0) sid

/-! ### Alternation of roles in stored histories -/

/-- The opposite speaker role. -/
def flipRole : Role → Role
  | .user => .assistant
  | .assistant => .user

/-- Strict user/assistant alternation of a turn list, starting with the
given expected role. -/
def AlternatingFrom : Role → List Turn → Prop
  | _, [] => True
  | r, t :: rest => t.role = r ∧ AlternatingFrom (flipRole r) rest

lemma flipRole_flipRole (r : Role) : flipRole (flipRole r) = r := by
  cases r <;> rfl

lemma alternatingFrom_append {l : List Turn} : ∀ {h : List Turn} {r : Role},
    AlternatingFrom r h →
    AlternatingFrom (if h.length % 2 = 0 then r else flipRole r) l →
    AlternatingFrom r (h ++ l) := by
  intro h
  induction h with
  | nil =>
    intro r hh hl
    simpa using hl
  | cons t rest ih =>
    intro r hh hl
    obtain ⟨ht, hrest⟩ := hh
    refine ⟨ht, ih hrest ?_⟩
    by_cases hp : rest.length % 2 = 0
    · rw [if_pos hp]
      rw [if_neg (by simp only [List.length_cons]; omega)] at hl
      exact hl
    · rw [if_neg hp, flipRole_flipRole]
      rw [if_pos (by simp only [List.length_cons]; omega)] at hl
      exact hl

lemma alternatingFrom_drop {d : Nat} (hd : d % 2 = 0) :
    ∀ {h : List Turn} {r : Role}, AlternatingFrom r h →
      AlternatingFrom r (h.drop d) := by
  suffices main : ∀ (n : Nat) (h : List Turn) (r : Role), AlternatingFrom r h →
      AlternatingFrom (if n % 2 = 0 then r else flipRole r) (h.drop n) by
    intro h r hh
    have hm := main d h r hh
    rw [if_pos hd] at hm
    exact hm
  intro n
  induction n with
  | zero =>
    intro h r hh
    simpa using hh
  | succ n ih =>
    intro h r hh
    cases h with
    | nil =>
      rw [List.drop_nil]
      exact trivial
    | cons t rest =>
      obtain ⟨ht, hrest⟩ := hh
      have hmain := ih rest (flipRole r) hrest
      rw [List.drop_succ_cons]
      by_cases hp : n % 2 = 0
      · rw [if_pos hp] at hmain
        rw [if_neg (by omega)]
        exact hmain
      · rw [if_neg hp, flipRole_flipRole] at hmain
        rw [if_pos (by omega)]
        exact hmain

/-! ### Trim lemmas -/

lemma jsTrimList_eq_nil {l : List Char} (h : l.all isJsWs = true) :
    jsTrimList l = [] := by
  unfold jsTrimList
  have h1 : l.dropWhile isJsWs = [] :=
    List.dropWhile_eq_nil_iff.mpr (fun c hc => all_mem_imp h c hc)
  rw [h1]
  simp

lemma jsTrim_eq_empty {s : String} (h : s.data.all isJsWs = true) :
    jsTrim s = "" := by
  unfold jsTrim
  rw [jsTrimList_eq_nil h]

lemma trim_charset (l : List Char) :
    ∀ c ∈ l, isJsWs c = true ∨ c ∈ jsTrimList l := by
  intro c hc
  unfold jsTrimList
  by_cases step1 : c ∈ l.dropWhile isJsWs
  · by_cases step2 : c ∈ ((l.dropWhile isJsWs).reverse).dropWhile isJsWs
    · exact Or.inr (List.mem_reverse.mpr step2)
    · left
      have hrev : c ∈ (l.dropWhile isJsWs).reverse := List.mem_reverse.mpr step1
      have hsplit :=
        List.takeWhile_append_dropWhile isJsWs (l.dropWhile isJsWs).reverse
      rw [← hsplit] at hrev
      rcases List.mem_append.mp hrev with h1 | h1
      · exact List.mem_takeWhile_imp h1
      · exact absurd h1 step2
  · left
    have hsplit := List.takeWhile_append_dropWhile isJsWs l
    rw [← hsplit] at hc
    rcases List.mem_append.mp hc with h1 | h1
    · exact List.mem_takeWhile_imp h1
    · exact absurd h1 step1

/-! ### Structure of messages accepted by the Easter-egg test -/

lemma all_takeWhile_ws (l : List Char) :
    (l.takeWhile isJsWs).all isJsWs = true := by
  rw [List.all_eq_true]
  intro c hc
  exact List.mem_takeWhile_imp hc

lemma suhairaTest_eq {m : String} (h : suhairaTest m = true) :
    ∃ u1 u2 : List Char, u1.all isJsWs = true ∧ u2.all isJsWs = true ∧
      (jsTrimList m.data).map Char.toLower
        = 'i' :: (u1 ++ ('a' :: 'm' :: (u2
            ++ ['s', 'u', 'h', 'a', 'i', 'r', 'a']))) := by
  simp only [suhairaTest] at h
  cases hst1 : stripLit ['i'] ((jsTrimList m.data).map Char.toLower) with
  | none =>
    simp only [hst1] at h
    exact absurd h (by simp)
  | some r1 =>
    simp only [hst1] at h
    cases hst2 : stripLit ['a', 'm'] (r1.dropWhile isJsWs) with
    | none =>
      simp only [hst2] at h
      exact absurd h (by simp)
    | some r2 =>
      simp only [hst2] at h
      cases hst3 : stripLit ['s', 'u', 'h', 'a', 'i', 'r', 'a']
          (r2.dropWhile isJsWs) with
      | none =>
        simp only [hst3] at h
        exact absurd h (by simp)
      | some r3 =>
        simp only [hst3] at h
        have hr3 : r3 = [] := by simpa [List.isEmpty_iff] using h
        subst hr3
        refine ⟨r1.takeWhile isJsWs, r2.takeWhile isJsWs,
          all_takeWhile_ws r1, all_takeWhile_ws r2, ?_⟩
        have e1 := stripLit_eq_append hst1
        have e2 := stripLit_eq_append hst2
        have e3 := stripLit_eq_append hst3
        rw [List.append_nil] at e3
        have hr1 := List.takeWhile_append_dropWhile isJsWs r1
        have hr2 := List.takeWhile_append_dropWhile isJsWs r2
        rw [e1]
        simp only [List.cons_append, List.nil_append, List.cons.injEq, true_and]
        calc r1 = r1.takeWhile isJsWs ++ r1.dropWhile isJsWs := hr1.symm
          _ = r1.takeWhile isJsWs ++ (['a', 'm'] ++ r2) := by rw [e2]
          _ = r1.takeWhile isJsWs ++ (['a', 'm']
              ++ (r2.takeWhile isJsWs ++ r2.dropWhile isJsWs)) := by rw [hr2]
          _ = r1.takeWhile isJsWs ++ ('a' :: 'm' :: (r2.takeWhile isJsWs
                ++ ['s', 'u', 'h', 'a', 'i', 'r', 'a'])) := by
              rw [e3]
              rfl

lemma suhaira_lower_charset {m : String} (h : suhairaTest m = true) :
    ∀ c ∈ (lowerStr m).data,
      isJsWs c = true ∨ c ∈ (['i', 'a', 'm', 's', 'u', 'h', 'r'] : List Char) := by
  obtain ⟨u1, u2, hu1, hu2, heq⟩ := suhairaTest_eq h
  intro c hc
  have hc' : c ∈ m.data.map Char.toLower := hc
  rcases List.mem_map.mp hc' with ⟨c0, hc0, rfl⟩
  rcases trim_charset m.data c0 hc0 with hws | htr
  · left
    rw [ws_toLower hws]
    exact hws
  · have hmem : c0.toLower ∈ (jsTrimList m.data).map Char.toLower :=
      List.mem_map_of_mem Char.toLower htr
    rw [heq] at hmem
    have hsub : ∀ x ∈ ('i' :: (u1 ++ ('a' :: 'm' :: (u2
        ++ ['s', 'u', 'h', 'a', 'i', 'r', 'a'])))),
        isJsWs x = true ∨ x ∈ (['i', 'a', 'm', 's', 'u', 'h', 'r'] : List Char) := by
      intro x hx
      simp only [List.mem_cons, List.mem_append, List.not_mem_nil, or_false] at hx
      rcases hx with rfl | hx | rfl | rfl | hx | hx
      · right; decide
      · exact Or.inl (all_mem_imp hu1 x hx)
      · right; decide
      · right; decide
      · exact Or.inl (all_mem_imp hu2 x hx)
      · right
        rcases hx with rfl | rfl | rfl | rfl | rfl | rfl | rfl <;> decide
    exact hsub _ hmem

lemma not_mem_of_ws_letters {L letters : List Char}
    (h : ∀ c ∈ L, isJsWs c = true ∨ c ∈ letters) {x : Char}
    (hx1 : isJsWs x = false) (hx2 : x ∉ letters) : x ∉ L := by
  intro hx
  rcases h x hx with h1 | h1
  · rw [hx1] at h1
    exact absurd h1 (by simp)
  · exact hx2 h1

lemma whoAreYouTest_false_of {s : List Char} (hw : 'w' ∉ s) :
    whoAreYouTest s = false := by
  cases h : whoAreYouTest s with
  | false => rfl
  | true => exact absurd (whoAreYouTest_chars h) hw

lemma howWorkTest_false_of {s : List Char} (ho : 'o' ∉ s) :
    howWorkTest s = false := by
  cases h : howWorkTest s with
  | false => rfl
  | true => exact absurd (howWorkTest_chars h) ho

lemma thankTest_false_of {s : List Char} (ht : 't' ∉ s) :
    thankTest s = false := by
  cases h : thankTest s with
  | false => rfl
  | true => exact absurd (thankTest_chars h) ht

/-- On any message accepted by the Easter-egg test, every earlier rule
fails and the rule chain returns the Easter-egg reply. -/
lemma tryRules_suhaira (renv : RuleEnv) {m : String}
    (h : suhairaTest m = true) : tryRules renv m = some easterEggReply := by
  have hch := suhaira_lower_charset h
  have hnw : 'w' ∉ (lowerStr m).data :=
    not_mem_of_ws_letters hch (by decide) (by decide)
  have hnc : 'c' ∉ (lowerStr m).data :=
    not_mem_of_ws_letters hch (by decide) (by decide)
  have hnt : 't' ∉ (lowerStr m).data :=
    not_mem_of_ws_letters hch (by decide) (by decide)
  have hno : 'o' ∉ (lowerStr m).data :=
    not_mem_of_ws_letters hch (by decide) (by decide)
  have hnplus : '+' ∉ (lowerStr m).data :=
    not_mem_of_ws_letters hch (by decide) (by decide)
  have hnodig : ∀ d ∈ (lowerStr m).data, isAsciiDigit d = false := by
    intro d hd
    rcases hch d hd with h1 | h1
    · exact ws_not_digit h1
    · have : ∀ y ∈ (['i', 'a', 'm', 's', 'u', 'h', 'r'] : List Char),
          isAsciiDigit y = false := by decide
      exact this d h1
  have hr1 : rule1Match (lowerStr m).data = false :=
    rule1Match_eq_false hnw (rule1Core_false_of_no_plus hnplus)
  have htime := timeTest_false_of hnw hnc
  have hdate := dateTest_false_of hnw hnt hnc
  have hwho := whoAreYouTest_false_of hnw
  have hhow := howWorkTest_false_of hno
  have hthank := thankTest_false_of hnt
  simp only [tryRules]
  rw [hr1, htime, hdate,
    firstPair_eq_none_of_no_digit hnodig,
    firstPair_eq_none_of_no_digit hnodig,
    firstPair_eq_none_of_no_digit hnodig,
    firstPair_eq_none_of_no_digit hnodig,
    hwho, hhow, hthank, h]
  rfl

/-! ### Claim theorems -/

lemma alternation_step {h : List Turn} (m r : String)
    (hinv : h.length % 2 = 0 ∧ AlternatingFrom Role.user h) :
    (truncateHistory (h ++ [⟨.user, m⟩, ⟨.assistant, r⟩])).length % 2 = 0
      ∧ AlternatingFrom Role.user
          (truncateHistory (h ++ [⟨.user, m⟩, ⟨.assistant, r⟩])) := by
  obtain ⟨hlen, halt⟩ := hinv
  have happ : AlternatingFrom Role.user (h ++ [⟨.user, m⟩, ⟨.assistant, r⟩]) := by
    apply alternatingFrom_append halt
    rw [if_pos hlen]
    exact ⟨rfl, rfl, trivial⟩
  have hlen2 : (h ++ [(⟨.user, m⟩ : Turn), ⟨.assistant, r⟩]).length % 2 = 0 := by
    simp only [List.length_append, List.length_cons, List.length_nil]
    omega
  unfold truncateHistory
  split
  · rename_i hgt
    constructor
    · rw [List.length_drop]
      omega
    · exact alternatingFrom_drop (by omega) happ
  · exact ⟨hlen2, happ⟩

/-- C1: after any completed chat request the stored history never exceeds
20 turns, and the truncation performed on append keeps exactly the most
recent 20 turns as a suffix of the appended history, preserving their
oldest-first relative order. -/
theorem history_cap_C1 :
    (∀ (reqs : List Request) (sid : String),
      ((runRequests reqs) sid).length ≤ 20)
    ∧ (∀ h : List Turn, truncateHistory h <:+ h)
    ∧ (∀ h : List Turn, h.length ≤ 20 → truncateHistory h = h)
    ∧ (∀ h : List Turn, 20 ≤ h.length → (truncateHistory h).length = 20) := by
  refine ⟨?_, truncateHistory_suffix, fun h hl => truncateHistory_eq_of_le hl,
    fun h hl => truncateHistory_length_eq hl⟩
  intro reqs sid
  exact runRequests_inv (fun h => h.length ≤ 20) (by simp)
    (fun h m r _ => truncateHistory_length_le _) reqs sid

theorem history_cap_C1_witness :
    (truncateHistory (List.replicate 25 (⟨Role.user, "x"⟩ : Turn))).length = 20
      ∧ truncateHistory (List.replicate 25 (⟨Role.user, "x"⟩ : Turn))
          <:+ List.replicate 25 (⟨Role.user, "x"⟩ : Turn) :=
  ⟨history_cap_C1.2.2.2 _ (by decide), history_cap_C1.2.1 _⟩

/-- C10: under sequential requests every stored history has even length
and strictly alternates roles user, assistant, user, ... beginning with a
user turn; each successful request appends exactly one user turn and one
assistant turn before the truncation to the last 20 turns. -/
theorem history_alternation_C10 :
    (∀ (reqs : List Request) (sid : String),
      Even (((runRequests reqs) sid).length)
        ∧ AlternatingFrom Role.user ((runRequests reqs) sid))
    ∧ (∀ (env : ChatEnv) (store : SessionStore) (sidH : Option String)
        (m : String), jsTrim m ≠ "" →
        (handleChat env store sidH (some m)).1
            = .ok (generateResponse env m).1
          ∧ (handleChat env store sidH (some m)).2 (sidH.getD "default")
            = truncateHistory (store (sidH.getD "default")
                ++ [⟨.user, m⟩, ⟨.assistant, (generateResponse env m).1⟩])) := by
  constructor
  · intro reqs sid
    have hres := runRequests_inv
      (fun h => h.length % 2 = 0 ∧ AlternatingFrom Role.user h)
      ⟨rfl, trivial⟩ (fun h m r hp => alternation_step m r hp) reqs sid
    exact ⟨Nat.even_iff.mpr hres.1, hres.2⟩
  · intro env store sidH m hm
    rw [handleChat_valid env store sidH m hm]
    exact ⟨rfl, by simp⟩

theorem history_alternation_C10_witness :
    (handleChat ⟨⟨"T", "D"⟩, false, .networkFailure, 0⟩ (fun _ => []) none
          (some "hello")).1
        = .ok (generateResponse ⟨⟨"T", "D"⟩, false, .networkFailure, 0⟩ "hello").1
      ∧ (handleChat ⟨⟨"T", "D"⟩, false, .networkFailure, 0⟩ (fun _ => []) none
          (some "hello")).2 ((none : Option String).getD "default")
        = truncateHistory ((fun _ => ([] : List Turn)) ((none : Option String).getD "default")
            ++ [⟨.user, "hello"⟩,
                ⟨.assistant, (generateResponse
                  ⟨⟨"T", "D"⟩, false, .networkFailure, 0⟩ "hello").1⟩]) :=
  history_alternation_C10.2 _ _ _ _ (by decide)

/-- C2: a chat request whose message is missing, empty, or whitespace-only
is answered 400 and the whole session store — in particular the resolved
session's history — is left unchanged. -/
theorem invalid_input_C2 (env : ChatEnv) (store : SessionStore)
    (sidHeader : Option String) (body : Option String)
    (h : body = none ∨ ∃ m, body = some m ∧ m.data.all isJsWs = true) :
    handleChat env store sidHeader body = (.badRequest, store) := by
  apply handleChat_invalid
  rcases h with rfl | ⟨m, rfl, hm⟩
  · exact Or.inl rfl
  · exact Or.inr ⟨m, rfl, jsTrim_eq_empty hm⟩

theorem invalid_input_C2_witness :
    handleChat ⟨⟨"T", "D"⟩, false, .networkFailure, 0⟩ (fun _ => []) none
        (some "  ") = (.badRequest, fun _ => []) :=
  invalid_input_C2 _ _ _ _ (Or.inr ⟨"  ", rfl, by decide⟩)

/-- C3: with a provider credential configured, a valid rule-unmatched
message whose provider call fails in any modelled way (non-success status,
malformed body, network failure) is still answered 200, with exactly the
fallback reply `getSmartFallback message`; the provider error is never
surfaced to the caller. -/
theorem provider_failure_C3 (env : ChatEnv) (store : SessionStore)
    (sidHeader : Option String) (m : String)
    (hrules : tryRules env.ruleEnv m = none)
    (hkey : env.apiKeyConfigured = true)
    (hfail : providerFailed env.provider = true)
    (hvalid : jsTrim m ≠ "") :
    (handleChat env store sidHeader (some m)).1
      = .ok (getSmartFallback m env.rand) := by
  have hresp : generateResponse env m = (getSmartFallback m env.rand, true) := by
    unfold generateResponse
    rw [hrules, hkey]
    rw [if_pos rfl]
    cases hp : env.provider with
    | success c =>
      rw [hp] at hfail
      exact absurd hfail (by simp [providerFailed])
    | httpError st => rfl
    | malformedBody => rfl
    | networkFailure => rfl
  rw [handleChat_valid env store sidHeader m hvalid]
  rw [hresp]

theorem provider_failure_C3_witness :
    (handleChat ⟨⟨"T", "D"⟩, true, .httpError 500, 2⟩ (fun _ => []) none
        (some "tell me a story")).1
      = .ok (getSmartFallback "tell me a story" 2) :=
  provider_failure_C3 _ _ _ _ (by decide) rfl rfl (by decide)

/-- C4: a message of the shape `a + b` (two non-negative integers around a
`+`, with arbitrary surrounding whitespace) is answered by the rule engine
with exactly `"a + b = sum"` computed from the first matched numeric pair,
and the external provider is not called.  The `2 ^ 53` bound marks the
range in which the exact model provably coincides with JavaScript's
IEEE-754 arithmetic and integer formatting. -/
theorem addition_rule_C4 (cenv : ChatEnv) (a w1 w2 b : List Char)
    (ha : a ≠ []) (hb : b ≠ [])
    (had : a.all isAsciiDigit = true) (hbd : b.all isAsciiDigit = true)
    (hw1 : w1.all isJsWs = true) (hw2 : w2.all isJsWs = true)
    (_hbound : natOfDigits a + natOfDigits b < 2 ^ 53) :
    tryRules cenv.ruleEnv (String.mk (a ++ (w1 ++ '+' :: (w2 ++ b))))
        = some (String.mk a ++ " + " ++ String.mk b ++ " = "
            ++ toString (natOfDigits a + natOfDigits b))
      ∧ generateResponse cenv (String.mk (a ++ (w1 ++ '+' :: (w2 ++ b))))
        = (String.mk a ++ " + " ++ String.mk b ++ " = "
            ++ toString (natOfDigits a + natOfDigits b), false) := by
  have htr := tryRules_pure_add cenv.ruleEnv ha hb had hbd hw1 hw2
  refine ⟨htr, ?_⟩
  unfold generateResponse
  rw [htr]

theorem addition_rule_C4_witness :
    tryRules (⟨⟨"T", "D"⟩, true, .networkFailure, 0⟩ : ChatEnv).ruleEnv
        (String.mk (['1', '2'] ++ ([' '] ++ '+' :: ([' '] ++ ['7']))))
        = some (String.mk ['1', '2'] ++ " + " ++ String.mk ['7'] ++ " = "
            ++ toString (natOfDigits ['1', '2'] + natOfDigits ['7']))
      ∧ generateResponse (⟨⟨"T", "D"⟩, true, .networkFailure, 0⟩ : ChatEnv)
          (String.mk (['1', '2'] ++ ([' '] ++ '+' :: ([' '] ++ ['7']))))
        = (String.mk ['1', '2'] ++ " + " ++ String.mk ['7'] ++ " = "
            ++ toString (natOfDigits ['1', '2'] + natOfDigits ['7']), false) :=
  addition_rule_C4 _ ['1', '2'] [' '] [' '] ['7'] (by decide) (by decide)
    (by decide) (by decide) (by decide) (by decide) (by decide)

/-- C6: the subtraction, multiplication, and division rules reply in the
same shape as the addition rule — first matched operand pair, operator
glyph, `=`, computed result — and the division rule has no zero guard:
a zero divisor produces the IEEE-754 result text, "NaN" for `0 / 0` and
"Infinity" otherwise.  The `2 ^ 53` bounds and the exact-quotient
hypothesis mark the range where the exact model provably coincides with
JavaScript's IEEE-754 arithmetic and number formatting; the concrete
conjuncts exhibit the first-pair selection on messages with several
operator occurrences. -/
theorem arithmetic_shape_C6 (cenv : ChatEnv) (a w1 w2 b : List Char)
    (ha : a ≠ []) (hb : b ≠ [])
    (had : a.all isAsciiDigit = true) (hbd : b.all isAsciiDigit = true)
    (hw1 : w1.all isJsWs = true) (hw2 : w2.all isJsWs = true) :
    (natOfDigits a < 2 ^ 53 → natOfDigits b < 2 ^ 53 →
      tryRules cenv.ruleEnv (String.mk (a ++ (w1 ++ '-' :: (w2 ++ b))))
        = some (String.mk a ++ " - " ++ String.mk b ++ " = "
            ++ toString ((natOfDigits a : Int) - natOfDigits b)))
    ∧ (natOfDigits a * natOfDigits b < 2 ^ 53 →
      tryRules cenv.ruleEnv (String.mk (a ++ (w1 ++ '*' :: (w2 ++ b))))
        = some (String.mk a ++ " × " ++ String.mk b ++ " = "
            ++ toString (natOfDigits a * natOfDigits b)))
    ∧ (natOfDigits b = 0 →
      tryRules cenv.ruleEnv (String.mk (a ++ (w1 ++ '/' :: (w2 ++ b))))
        = some (String.mk a ++ " ÷ " ++ String.mk b ++ " = "
            ++ (if natOfDigits a = 0 then "NaN" else "Infinity")))
    ∧ (natOfDigits a < 2 ^ 53 → natOfDigits b ≠ 0 →
        natOfDigits a % natOfDigits b = 0 →
      tryRules cenv.ruleEnv (String.mk (a ++ (w1 ++ '/' :: (w2 ++ b))))
        = some (String.mk a ++ " ÷ " ++ String.mk b ++ " = "
            ++ toString (natOfDigits a / natOfDigits b)))
    ∧ tryRules cenv.ruleEnv "9 - 5 - 3" = some "9 - 5 = 4"
    ∧ tryRules cenv.ruleEnv "100 / 5 / 2" = some "100 ÷ 5 = 20"
    ∧ (∀ (m r : String), tryRules cenv.ruleEnv m = some r →
        generateResponse cenv m = (r, false)) := by
  refine ⟨?_, ?_, ?_, ?_, rfl, rfl, ?_⟩
  · intro h1 h2
    exact tryRules_pure_sub cenv.ruleEnv ha hb had hbd hw1 hw2
  · intro h1
    exact tryRules_pure_mul cenv.ruleEnv ha hb had hbd hw1 hw2
  · intro hb0
    have htr := tryRules_pure_div cenv.ruleEnv ha hb had hbd hw1 hw2
    rw [htr]
    unfold jsDivString
    rw [hb0, if_pos rfl]
  · intro h1 hb0 hmod
    have htr := tryRules_pure_div cenv.ruleEnv ha hb had hbd hw1 hw2
    rw [htr]
    unfold jsDivString
    rw [if_neg hb0, if_pos hmod]
  · intro m r htr
    unfold generateResponse
    rw [htr]

theorem arithmetic_shape_C6_witness :
    tryRules (⟨⟨"T", "D"⟩, false, .malformedBody, 0⟩ : ChatEnv).ruleEnv
        (String.mk (['9'] ++ ([' '] ++ '-' :: ([' '] ++ ['5']))))
      = some (String.mk ['9'] ++ " - " ++ String.mk ['5'] ++ " = "
          ++ toString ((natOfDigits ['9'] : Int) - natOfDigits ['5'])) :=
  (arithmetic_shape_C6 _ ['9'] [' '] [' '] ['5'] (by decide) (by decide)
    (by decide) (by decide) (by decide) (by decide)).1 (by decide) (by decide)

/-- C8: every message accepted by the anchored, case-insensitive,
whitespace-tolerant Easter-egg test — in particular the literal
`"I am Suhaira"` — is answered with the fixed celebratory reply verbatim,
without calling the external provider; the test is anchored, so a message
merely containing the phrase does not trigger it (and no other rule
matches it either). -/
theorem easter_egg_C8 :
    (∀ (renv : RuleEnv) (m : String), suhairaTest m = true →
      tryRules renv m = some easterEggReply)
    ∧ (∀ (cenv : ChatEnv) (m : String), suhairaTest m = true →
      generateResponse cenv m = (easterEggReply, false))
    ∧ (∀ renv : RuleEnv, tryRules renv "She said I am Suhaira" = none) := by
  refine ⟨fun renv m h => tryRules_suhaira renv h, ?_, fun renv => rfl⟩
  intro cenv m h
  unfold generateResponse
  rw [tryRules_suhaira cenv.ruleEnv h]

theorem easter_egg_C8_witness :
    tryRules ⟨"T", "D"⟩ "I am Suhaira" = some easterEggReply
      ∧ tryRules ⟨"T", "D"⟩ "i AM   suhaira" = some easterEggReply :=
  ⟨easter_egg_C8.1 ⟨"T", "D"⟩ "I am Suhaira" (by decide),
   easter_egg_C8.1 ⟨"T", "D"⟩ "i AM   suhaira" (by decide)⟩

/-- C7: with no provider credential, a rule-unmatched message always
resolves to a fallback string that is never empty and is drawn only from
the fixed pool; the keyword cascade fires in the documented order
(greeting, how-are-you, identity, help, farewell), and otherwise the
reply is the uniformly-random pick `fallbackResponses[rand]` from the
pool of eight generic replies. -/
theorem fallback_pool_C7 :
    (∀ (m : String) (r : Fin 8), getSmartFallback m r ≠ "")
    ∧ (∀ (m : String) (r : Fin 8), getSmartFallback m r ∈
        greetingReply :: howAreYouReply :: identityReply :: helpReply ::
          farewellReply :: fallbackResponses)
    ∧ (∀ (m : String) (r : Fin 8),
        (strIncludes (lowerStr m) "hello" || strIncludes (lowerStr m) "hi") = true →
        getSmartFallback m r = greetingReply)
    ∧ (∀ (m : String) (r : Fin 8),
        strIncludes (lowerStr m) "hello" = false →
        strIncludes (lowerStr m) "hi" = false →
        strIncludes (lowerStr m) "how are you" = true →
        getSmartFallback m r = howAreYouReply)
    ∧ (∀ (m : String) (r : Fin 8),
        strIncludes (lowerStr m) "hello" = false →
        strIncludes (lowerStr m) "hi" = false →
        strIncludes (lowerStr m) "how are you" = false →
        strIncludes (lowerStr m) "what" = true →
        strIncludes (lowerStr m) "name" = true →
        getSmartFallback m r = identityReply)
    ∧ (∀ (m : String) (r : Fin 8),
        strIncludes (lowerStr m) "hello" = false →
        strIncludes (lowerStr m) "hi" = false →
        strIncludes (lowerStr m) "how are you" = false →
        (strIncludes (lowerStr m) "what" && strIncludes (lowerStr m) "name") = false →
        strIncludes (lowerStr m) "help" = true →
        getSmartFallback m r = helpReply)
    ∧ (∀ (m : String) (r : Fin 8),
        strIncludes (lowerStr m) "hello" = false →
        strIncludes (lowerStr m) "hi" = false →
        strIncludes (lowerStr m) "how are you" = false →
        (strIncludes (lowerStr m) "what" && strIncludes (lowerStr m) "name") = false →
        strIncludes (lowerStr m) "help" = false →
        (strIncludes (lowerStr m) "bye" || strIncludes (lowerStr m) "goodbye") = true →
        getSmartFallback m r = farewellReply)
    ∧ (∀ (m : String) (r : Fin 8),
        strIncludes (lowerStr m) "hello" = false →
        strIncludes (lowerStr m) "hi" = false →
        strIncludes (lowerStr m) "how are you" = false →
        (strIncludes (lowerStr m) "what" && strIncludes (lowerStr m) "name") = false →
        strIncludes (lowerStr m) "help" = false →
        strIncludes (lowerStr m) "bye" = false →
        strIncludes (lowerStr m) "goodbye" = false →
        getSmartFallback m r = fallbackResponses.getD r.val "") := by
  refine ⟨?_, ?_, ?_, ?_, ?_, ?_, ?_, ?_⟩
  · intro m r
    unfold getSmartFallback
    dsimp only
    split_ifs <;> first | decide | (fin_cases r <;> decide)
  · intro m r
    unfold getSmartFallback
    dsimp only
    split_ifs <;> first | decide | (fin_cases r <;> decide)
  · intro m r h
    unfold getSmartFallback
    rw [if_pos h]
  · intro m r h1 h2 h3
    simp [getSmartFallback, h1, h2, h3]
  · intro m r h1 h2 h3 h4 h5
    simp [getSmartFallback, h1, h2, h3, h4, h5]
  · intro m r h1 h2 h3 h4 h5
    simp [getSmartFallback, h1, h2, h3, h4, h5]
  · intro m r h1 h2 h3 h4 h5 h6
    simp [getSmartFallback, h1, h2, h3, h4, h5, h6]
  · intro m r h1 h2 h3 h4 h5 h6 h7
    simp [getSmartFallback, h1, h2, h3, h4, h5, h6, h7]

theorem fallback_pool_C7_witness :
    getSmartFallback "xyzq" 5 = fallbackResponses.getD 5 "" :=
  fallback_pool_C7.2.2.2.2.2.2.2 "xyzq" 5 (by decide) (by decide) (by decide)
    (by decide) (by decide) (by decide) (by decide)

/-- C9: the fallback keyword checks are substring containment on the
lower-cased message, not word matching: any message whose lower-case form
contains "hi" anywhere (such as "this" or "chips") gets the fixed greeting
reply, and "what" and "name" trigger the identity reply in any order and
inside other words, provided no earlier keyword check fires first. -/
theorem substring_semantics_C9 :
    (∀ (m : String) (r : Fin 8), strIncludes (lowerStr m) "hi" = true →
      getSmartFallback m r = greetingReply)
    ∧ (∀ (m : String) (r : Fin 8),
        strIncludes (lowerStr m) "hello" = false →
        strIncludes (lowerStr m) "hi" = false →
        strIncludes (lowerStr m) "how are you" = false →
        strIncludes (lowerStr m) "what" = true →
        strIncludes (lowerStr m) "name" = true →
        getSmartFallback m r = identityReply)
    ∧ (∀ r : Fin 8, getSmartFallback "this" r = greetingReply
        ∧ getSmartFallback "chips" r = greetingReply
        ∧ getSmartFallback "namely somewhat" r = identityReply) := by
  refine ⟨?_, ?_, ?_⟩
  · intro m r h
    unfold getSmartFallback
    have hcond : (strIncludes (lowerStr m) "hello"
        || strIncludes (lowerStr m) "hi") = true := by
      rw [h, Bool.or_true]
    rw [if_pos hcond]
  · intro m r h1 h2 h3 h4 h5
    simp [getSmartFallback, h1, h2, h3, h4, h5]
  · intro r
    exact ⟨rfl, rfl, rfl⟩

theorem substring_semantics_C9_witness :
    getSmartFallback "this" 0 = greetingReply :=
  substring_semantics_C9.1 "this" 0 (by decide)

/-! ### The retrieval pipeline (C5) -/

lemma scoredDocs_map_fst (kb : List KnowledgeEntry) (score : Nat → ℚ) :
    (scoredDocs kb score).map Prod.fst = List.range kb.length := by
  unfold scoredDocs
  rw [List.map_map]
  exact List.map_id _

lemma mem_scoredDocs {kb : List KnowledgeEntry} {score : Nat → ℚ}
    {p : Nat × ℚ} (hp : p ∈ scoredDocs kb score) :
    p.1 < kb.length ∧ p.2 = score p.1 := by
  unfold scoredDocs at hp
  rcases List.mem_map.mp hp with ⟨i, hi, rfl⟩
  exact ⟨List.mem_range.mp hi, rfl⟩

lemma scoredDocs_mem {kb : List KnowledgeEntry} {score : Nat → ℚ}
    {j : Nat} (hj : j < kb.length) : (j, score j) ∈ scoredDocs kb score := by
  unfold scoredDocs
  exact List.mem_map_of_mem _ (List.mem_range.mpr hj)

/-- C5: retrieval scores every document, stable-sorts them by descending
score (ties in insertion order), keeps the top `topK`, discards
non-positive scores and returns the corresponding answers in
descending-score order; an empty (or failed-to-load) knowledge store
always yields the empty sequence.  The returned index list `idxs` makes
the pipeline explicit: it is bounded by `topK`, contains only positively
scored valid indices, is strictly descending in the stable order, and
whenever a positively scored document is left out, the result is full
(`topK` entries) and every kept document beats the left-out one. -/
theorem retrieval_pipeline_C5 (kb : List KnowledgeEntry) (score : Nat → ℚ)
    (topK : Nat) :
    (kb.length = 0 → retrieveRelevantContext kb score topK = [])
    ∧ ∃ idxs : List Nat,
        retrieveRelevantContext kb score topK
            = idxs.map (fun i => (kb.getD i ⟨"", ""⟩).answer)
        ∧ idxs.length ≤ topK
        ∧ (∀ i ∈ idxs, i < kb.length ∧ 0 < score i)
        ∧ idxs.Pairwise (fun i j => score j < score i ∨ (score i = score j ∧ i < j))
        ∧ (∀ j, j < kb.length → 0 < score j → j ∉ idxs →
            idxs.length = topK
              ∧ ∀ i ∈ idxs, score j < score i ∨ (score i = score j ∧ i < j)) := by
  by_cases hkb : kb.length = 0
  · refine ⟨fun _ => ?_, [], ?_, by simp, by simp, List.Pairwise.nil, ?_⟩
    · unfold retrieveRelevantContext
      rw [if_pos hkb]
    · unfold retrieveRelevantContext
      rw [if_pos hkb]
      rfl
    · intro j hj
      omega
  · refine ⟨fun h => absurd h hkb, ?_⟩
    have hperm : List.Perm (List.insertionSort scoreRank (scoredDocs kb score))
        (scoredDocs kb score) := List.perm_insertionSort _ _
    have hsorted : (List.insertionSort scoreRank (scoredDocs kb score)).Pairwise
        scoreRank := List.sorted_insertionSort _ _
    have hmemS : ∀ p ∈ List.insertionSort scoreRank (scoredDocs kb score),
        p.1 < kb.length ∧ p.2 = score p.1 :=
      fun p hp => mem_scoredDocs (hperm.mem_iff.mp hp)
    have hfilt_sub_take :
        List.Sublist
          (((List.insertionSort scoreRank (scoredDocs kb score)).take
            topK).filter (fun s => 0 < s.2))
          ((List.insertionSort scoreRank (scoredDocs kb score)).take topK) :=
      List.filter_sublist _
    have hfilt_sub :
        List.Sublist
          (((List.insertionSort scoreRank (scoredDocs kb score)).take
            topK).filter (fun s => 0 < s.2))
          (List.insertionSort scoreRank (scoredDocs kb score)) :=
      hfilt_sub_take.trans (List.take_sublist _ _)
    have hmem_filt : ∀ p ∈ ((List.insertionSort scoreRank
          (scoredDocs kb score)).take topK).filter (fun s => 0 < s.2),
        p.1 < kb.length ∧ 0 < p.2 ∧ p.2 = score p.1 := by
      intro p hp
      rcases List.mem_filter.mp hp with ⟨hpt, hpos⟩
      have hm := hmemS p (hfilt_sub.subset hp)
      exact ⟨hm.1, by simpa using hpos, hm.2⟩
    refine ⟨(((List.insertionSort scoreRank (scoredDocs kb score)).take
        topK).filter (fun s => 0 < s.2)).map Prod.fst, ?_, ?_, ?_, ?_, ?_⟩
    · unfold retrieveRelevantContext
      rw [if_neg hkb]
      rw [List.map_map]
      rfl
    · rw [List.length_map]
      exact (List.Sublist.length_le hfilt_sub_take).trans
        (by rw [List.length_take]; exact Nat.min_le_left _ _)
    · intro i hi
      rcases List.mem_map.mp hi with ⟨p, hp, rfl⟩
      rcases hmem_filt p hp with ⟨h1, h2, h3⟩
      exact ⟨h1, h3 ▸ h2⟩
    · have hnodupS : ((List.insertionSort scoreRank
          (scoredDocs kb score)).map Prod.fst).Nodup := by
        have hp2 : List.Perm ((List.insertionSort scoreRank
            (scoredDocs kb score)).map Prod.fst) (List.range kb.length) := by
          rw [← scoredDocs_map_fst kb score]
          exact hperm.map Prod.fst
        exact (hp2.nodup_iff).mpr (List.nodup_range kb.length)
      have hnodup_filt : ((((List.insertionSort scoreRank
          (scoredDocs kb score)).take topK).filter
            (fun s => 0 < s.2)).map Prod.fst).Nodup :=
        List.Nodup.sublist (List.Sublist.map Prod.fst hfilt_sub) hnodupS
      have hpair_ne := List.pairwise_map.mp hnodup_filt
      have hpair_rank : (((List.insertionSort scoreRank
          (scoredDocs kb score)).take topK).filter
            (fun s => 0 < s.2)).Pairwise scoreRank :=
        List.Pairwise.sublist hfilt_sub hsorted
      rw [List.pairwise_map]
      refine List.Pairwise.imp_of_mem ?_ (hpair_rank.and hpair_ne)
      intro p q hp hq hpq
      rcases hmem_filt p hp with ⟨hp1, hp2, hp3⟩
      rcases hmem_filt q hq with ⟨hq1, hq2, hq3⟩
      rcases hpq.1 with hlt | ⟨heq, hle⟩
      · left
        rw [← hp3, ← hq3]
        exact hlt
      · right
        rw [← hp3, ← hq3]
        exact ⟨heq, lt_of_le_of_ne hle hpq.2⟩
    · intro j hj hpos hnot
      have hjS : (j, score j) ∈ List.insertionSort scoreRank
          (scoredDocs kb score) := hperm.mem_iff.mpr (scoredDocs_mem hj)
      have hsplit := List.take_append_drop topK
        (List.insertionSort scoreRank (scoredDocs kb score))
      have hsorted2 : ((List.insertionSort scoreRank
            (scoredDocs kb score)).take topK
          ++ (List.insertionSort scoreRank (scoredDocs kb score)).drop
            topK).Pairwise scoreRank := by
        rw [hsplit]
        exact hsorted
      have hcross := (List.pairwise_append.mp hsorted2).2.2
      have hjS2 : (j, score j) ∈ (List.insertionSort scoreRank
            (scoredDocs kb score)).take topK
          ∨ (j, score j) ∈ (List.insertionSort scoreRank
            (scoredDocs kb score)).drop topK := by
        rw [← List.mem_append, hsplit]
        exact hjS
      rcases hjS2 with hjtake | hjdrop
      · exfalso
        apply hnot
        have : (j, score j) ∈ ((List.insertionSort scoreRank
            (scoredDocs kb score)).take topK).filter (fun s => 0 < s.2) :=
          List.mem_filter.mpr ⟨hjtake, by simpa using hpos⟩
        exact List.mem_map_of_mem Prod.fst this
      · have hdom : ∀ p ∈ (List.insertionSort scoreRank
            (scoredDocs kb score)).take topK, scoreRank p (j, score j) :=
          fun p hp => hcross p hp _ hjdrop
        have hpos_take : ∀ p ∈ (List.insertionSort scoreRank
            (scoredDocs kb score)).take topK, 0 < p.2 := by
          intro p hp
          rcases hdom p hp with hlt | ⟨heq, _⟩
          · exact hpos.trans hlt
          · rw [heq]
            exact hpos
        have hfilt_eq : ((List.insertionSort scoreRank
              (scoredDocs kb score)).take topK).filter (fun s => 0 < s.2)
            = (List.insertionSort scoreRank (scoredDocs kb score)).take topK :=
          List.filter_eq_self.mpr (fun p hp => by simpa using hpos_take p hp)
        have hlen_take : ((List.insertionSort scoreRank
            (scoredDocs kb score)).take topK).length = topK := by
          have hne : (List.insertionSort scoreRank
              (scoredDocs kb score)).drop topK ≠ [] :=
            List.ne_nil_of_mem hjdrop
          have hlt : topK < (List.insertionSort scoreRank
              (scoredDocs kb score)).length := by
            by_contra hge
            exact hne (List.drop_eq_nil_of_le (by omega))
          rw [List.length_take]
          omega
        constructor
        · rw [List.length_map, hfilt_eq, hlen_take]
        · intro i hi
          rcases List.mem_map.mp hi with ⟨p, hp, rfl⟩
          have hpt : p ∈ (List.insertionSort scoreRank
              (scoredDocs kb score)).take topK := hfilt_sub_take.subset hp
          have hrel := hdom p hpt
          have hpm := hmemS p ((List.take_sublist _ _).subset hpt)
          have hpne : p.1 ≠ j := by
            intro heq
            exact hnot (heq ▸ List.mem_map_of_mem Prod.fst hp)
          rcases hrel with hlt | ⟨heq, hle⟩
          · left
            rw [← hpm.2]
            exact hlt
          · right
            rw [← hpm.2]
            exact ⟨heq, lt_of_le_of_ne hle hpne⟩

theorem retrieval_pipeline_C5_witness :
    ∃ idxs : List Nat,
      retrieveRelevantContext
          [⟨"q0", "a0"⟩, ⟨"q1", "a1"⟩, ⟨"q2", "a2"⟩]
          (fun i => if i = 1 then 2 else if i = 2 then 2 else 0) 2
          = idxs.map (fun i =>
              (([⟨"q0", "a0"⟩, ⟨"q1", "a1"⟩,
                  ⟨"q2", "a2"⟩] : List KnowledgeEntry).getD i ⟨"", ""⟩).answer)
        ∧ idxs.length ≤ 2
        ∧ (∀ i ∈ idxs, i < ([⟨"q0", "a0"⟩, ⟨"q1", "a1"⟩,
            ⟨"q2", "a2"⟩] : List KnowledgeEntry).length
            ∧ 0 < (fun i => if i = 1 then 2 else if i = 2 then 2 else (0 : ℚ)) i)
        ∧ idxs.Pairwise (fun i j =>
            (fun i => if i = 1 then 2 else if i = 2 then 2 else (0 : ℚ)) j
                < (fun i => if i = 1 then 2 else if i = 2 then 2 else (0 : ℚ)) i
              ∨ ((fun i => if i = 1 then 2 else if i = 2 then 2 else (0 : ℚ)) i
                  = (fun i => if i = 1 then 2 else if i = 2 then 2 else (0 : ℚ)) j
                ∧ i < j))
        ∧ (∀ j, j < ([⟨"q0", "a0"⟩, ⟨"q1", "a1"⟩,
              ⟨"q2", "a2"⟩] : List KnowledgeEntry).length
            → 0 < (fun i => if i = 1 then 2 else if i = 2 then 2 else (0 : ℚ)) j
            → j ∉ idxs →
            idxs.length = 2
              ∧ ∀ i ∈ idxs,
                (fun i => if i = 1 then 2 else if i = 2 then 2 else (0 : ℚ)) j
                    < (fun i => if i = 1 then 2 else if i = 2 then 2 else (0 : ℚ)) i
                  ∨ ((fun i => if i = 1 then 2 else if i = 2 then 2 else (0 : ℚ)) i
                      = (fun i => if i = 1 then 2 else if i = 2 then 2 else (0 : ℚ)) j
                    ∧ i < j)) :=
  (retrieval_pipeline_C5 [⟨"q0", "a0"⟩, ⟨"q1", "a1"⟩, ⟨"q2", "a2"⟩]
    (fun i => if i = 1 then 2 else if i = 2 then 2 else 0) 2).2
